import Mathlib

/-!
# Aptos balance checker (`main.go`): embedding and verified properties

A shallow embedding of `src/main.go`.

* A Go `string` is an immutable sequence of bytes; `len` and slicing are
  byte-indexed.  It is modelled as `List UInt8`.  Where the specification says
  "character" the code counts bytes.
* The functions of Go's `strings` package used by the program (`TrimSpace`,
  `TrimRight` with a one-byte cutset, `HasSuffix`, `TrimSuffix`, `TrimPrefix`)
  are modelled from their documented behaviour on bytes.
* The Aptos SDK (client construction, relaxed address parsing, balance query)
  and the clock are an external collaborator: a record of state-passing
  operations over an arbitrary world type.
-/

namespace AptosBalance

/-! ## Go strings -/

/-- A Go string: a sequence of bytes. -/
abbrev GoString := List UInt8

/-- The Go string denoted by a source literal: the UTF-8 encoding of its text. -/
def lit (s : String) : GoString := s.data.flatMap String.utf8EncodeChar

/-- The six ASCII bytes for which `unicode.IsSpace` holds:
`'\t'`, `'\n'`, `'\v'`, `'\f'`, `'\r'`, `' '`. -/
def isAsciiSpace (a : UInt8) : Bool :=
  a == 0x09 || a == 0x0A || a == 0x0B || a == 0x0C || a == 0x0D || a == 0x20

/-- The two-byte UTF-8 sequences that decode to a white-space rune:
U+0085 (NEL) and U+00A0 (NBSP). -/
def isSpace2 (a b : UInt8) : Bool :=
  a == 0xC2 && (b == 0x85 || b == 0xA0)

/-- The three-byte UTF-8 sequences that decode to a white-space rune:
U+1680, U+2000..U+200A, U+2028, U+2029, U+202F, U+205F, U+3000. -/
def isSpace3 (a b c : UInt8) : Bool :=
  (a == 0xE1 && b == 0x9A && c == 0x80) ||
  (a == 0xE2 && b == 0x80 &&
    ((0x80 ≤ c && c ≤ 0x8A) || c == 0xA8 || c == 0xA9 || c == 0xAF)) ||
  (a == 0xE2 && b == 0x81 && c == 0x9F) ||
  (a == 0xE3 && b == 0x80 && c == 0x80)

/-- The loop of `strings.TrimLeftFunc(s, unicode.IsSpace)`: decode the first rune;
while it is white space, drop its bytes.  A byte sequence that is not the
encoding of a white-space rune (invalid UTF-8 included) stops the loop. -/
def trimLeftSpace : GoString → GoString
  | [] => []
  | a :: s1 =>
    if isAsciiSpace a then trimLeftSpace s1
    else match s1 with
      | [] => [a]
      | b :: s2 =>
        if isSpace2 a b then trimLeftSpace s2
        else match s2 with
          | [] => [a, b]
          | c :: s3 =>
            if isSpace3 a b c then trimLeftSpace s3
            else a :: b :: c :: s3

/-- The loop of `strings.TrimRightFunc(s, unicode.IsSpace)` on the reversed
string (last byte first): decode the last rune; while it is white space, drop
its bytes. -/
def trimRightSpaceRev : GoString → GoString
  | [] => []
  | c :: r1 =>
    if isAsciiSpace c then trimRightSpaceRev r1
    else match r1 with
      | [] => [c]
      | b :: r2 =>
        if isSpace2 b c then trimRightSpaceRev r2
        else match r2 with
          | [] => [c, b]
          | a :: r3 =>
            if isSpace3 a b c then trimRightSpaceRev r3
            else c :: b :: a :: r3

/-- Trailing white space removed (`strings.TrimRightFunc(s, unicode.IsSpace)`). -/
def trimRightSpace (s : GoString) : GoString :=
  (trimRightSpaceRev s.reverse).reverse

/-- Go `strings.TrimSpace`: all leading and trailing white space removed, as
defined by Unicode. -/
def TrimSpace (s : GoString) : GoString :=
  trimRightSpace (trimLeftSpace s)

/-- Go `strings.TrimRight(s, cutset)` for a cutset of one ASCII byte `c`
(the library's `trimRightByte`): every trailing `c` is removed. -/
def TrimRightByte (s : GoString) (c : UInt8) : GoString :=
  s.rdropWhile (fun b => b == c)

/-- Go `strings.HasSuffix`. -/
def HasSuffix (s suffix : GoString) : Bool :=
  suffix.isSuffixOf s

/-- Go `strings.TrimSuffix`: `s` without the trailing `suffix`, or `s` itself
when `s` does not end with `suffix`. -/
def TrimSuffix (s suffix : GoString) : GoString :=
  if HasSuffix s suffix then s.take (s.length - suffix.length) else s

/-- Go `strings.HasPrefix`. -/
def HasPrefix (s pre : GoString) : Bool :=
  pre.isPrefixOf s

/-- Go `strings.TrimPrefix`: `s` without the leading `pre`, or `s` itself when
`s` does not start with `pre`. -/
def TrimPrefix (s pre : GoString) : GoString :=
  if HasPrefix s pre then s.drop pre.length else s

/-! ## `normalizeNodeURL` and `shortURL` -/

/-- The byte `'/'`. -/
def slash : UInt8 := 0x2F

/-- The literal `"/view"`. -/
def viewSuffix : GoString := [0x2F, 0x76, 0x69, 0x65, 0x77]

/-- The literal `"/v1/view"`. -/
def v1ViewSuffix : GoString := [0x2F, 0x76, 0x31, 0x2F, 0x76, 0x69, 0x65, 0x77]

/-- The literal `"/v1"`. -/
def v1Suffix : GoString := [0x2F, 0x76, 0x31]

/-- The literal `"..."`. -/
def ellipsis : GoString := [0x2E, 0x2E, 0x2E]

/-- Function `normalizeNodeURL` (main.go, lines 27-37). -/
def normalizeNodeURL (u : GoString) : GoString :=
  let u := TrimSpace u
  let u := TrimRightByte u slash
  if HasSuffix u v1ViewSuffix then
    TrimSuffix u viewSuffix
  else if HasSuffix u viewSuffix then
    TrimSuffix u viewSuffix
  else
    u

/-- Function `shortURL` (main.go, lines 39-48). -/
def shortURL (u : GoString) : GoString :=
  let u := TrimSpace u
  if u = [] then []
  else if u.length ≤ 70 then u
  else u.take 67 ++ ellipsis

/-! ## binary64 arithmetic used by the conversion to APT

`float64(octas) / 100_000_000.0` uses two IEEE 754 operations, the conversion of
an unsigned integer and a division, both correctly rounded (round to nearest,
ties to even).  Only finite non-negative values in the normal range occur. -/

/-- A finite non-negative binary64 value `mant * 2 ^ exp`, either zero
(`mant = 0`, `exp = 0`) or normalised with `2 ^ 52 ≤ mant < 2 ^ 53`. -/
structure Float64 where
  mant : Nat
  exp : Int
deriving DecidableEq, Repr

/-- The value `+0`, the zero value of a Go `float64`. -/
def Float64.zero : Float64 := ⟨0, 0⟩

/-- The exact rational value of a binary64 value. -/
def Float64.toRat (x : Float64) : ℚ := (x.mant : ℚ) * (2 : ℚ) ^ x.exp

/-- Number of binary digits of `n`, computed with `fuel` halvings. -/
def bitLenAux : Nat → Nat → Nat
  | 0, _ => 0
  | fuel + 1, n => if n = 0 then 0 else bitLenAux fuel (n / 2) + 1

/-- Number of binary digits of `n` (`0` for `0`). -/
def bitLen (n : Nat) : Nat := bitLenAux n n

/-- The integer nearest to `a / b`, ties to the even one. -/
def roundHalfEven (a b : Nat) : Nat :=
  let q := a / b
  let r := a % b
  if 2 * r < b then q
  else if b < 2 * r then q + 1
  else if q % 2 = 0 then q else q + 1

/-- The `e` with `2 ^ e ≤ n / d < 2 ^ (e + 1)`, for positive `n` and `d`. -/
def floorLog2Ratio (n d : Nat) : Int :=
  let e0 : Int := (bitLen n : Int) - (bitLen d : Int)
  if d * 2 ^ e0.toNat ≤ n * 2 ^ (-e0).toNat then e0 else e0 - 1

/-- The binary64 value nearest to the rational `n / d` (ties to even), for
`d > 0` and a quotient that is zero or in the normal range: the significand is
`n / d` scaled to 53 bits and rounded. -/
def roundToFloat64 (n d : Nat) : Float64 :=
  if n = 0 then Float64.zero
  else
    let s : Int := 52 - floorLog2Ratio n d
    let m := roundHalfEven (n * 2 ^ s.toNat) (d * 2 ^ (-s).toNat)
    if m = 2 ^ 53 then ⟨2 ^ 52, 1 - s⟩ else ⟨m, -s⟩

/-- Go conversion `float64(n)` of an unsigned integer. -/
def Float64.ofNat (n : Nat) : Float64 := roundToFloat64 n 1

/-- IEEE 754 division `x / y` of non-negative finite values, `y` non-zero and
the quotient zero or in the normal range. -/
def Float64.div (x y : Float64) : Float64 :=
  let k : Int := x.exp - y.exp
  roundToFloat64 (x.mant * 2 ^ k.toNat) (y.mant * 2 ^ (-k).toNat)

/-- The constant `100_000_000.0`. -/
def octasPerAPT : Float64 := Float64.ofNat 100000000

/-! ## The external collaborator -/

/-- The Go `error` values that end up in a row: `E` is the type of the errors
the SDK returns. -/
inductive GoError (E : Type) where
  /-- Built by `fmt.Errorf` without `%w`: an error with the formatted text. -/
  | errorf (msg : GoString)
  /-- Built by `fmt.Errorf` with `%w`: the formatted text and the wrapped cause. -/
  | wrapf (msg : GoString) (cause : E)
  /-- An error of the SDK itself. -/
  | sdk (e : E)
deriving DecidableEq, Repr

/-- The text `err.Error()` of an error. -/
def GoError.text {E : Type} (errorText : E → GoString) : GoError E → GoString
  | .errorf msg => msg
  | .wrapf msg _ => msg
  | .sdk e => errorText e

/-- The SDK and the clock as seen by `checkOne`.  Every operation may read and
change the outside world `W`.  `NewClient` and `ParseStringRelaxed` return a
value or a non-nil error; `AccountAPTBalance` returns a `uint64` together with
an error that may be nil (`none`). -/
structure Sdk (W Client Addr E : Type) where
  NewClient : GoString → W → Except E Client × W
  ParseStringRelaxed : GoString → W → Except E Addr × W
  AccountAPTBalance : Client → Addr → W → (UInt64 × Option E) × W
  /-- Reading of the monotonic clock, in nanoseconds. -/
  now : W → Int
  /-- The text `err.Error()` of an SDK error. -/
  errorText : E → GoString

/-- A call to the collaborator. -/
inductive Call where
  | newClient (nodeUrl : GoString)
  | parseStringRelaxed (accountStr : GoString)
  | accountAPTBalance
deriving DecidableEq, Repr

/-- Largest `time.Duration` (an `int64` count of nanoseconds). -/
def maxDuration : Int := 2 ^ 63 - 1

/-- Smallest `time.Duration`. -/
def minDuration : Int := -(2 ^ 63)

/-- Difference `t - u` of two clock readings as a `time.Duration`, saturating
at the ends of the `int64` range (`time.Since`). -/
def durationSub (t u : Int) : Int :=
  if maxDuration < t - u then maxDuration
  else if t - u < minDuration then minDuration
  else t - u

/-! ## `checkOne` -/

/-- The `row` struct (main.go, lines 13-20).  `Err = none` is the nil error. -/
structure row (E : Type) where
  Name : GoString
  BaseURL : GoString
  Latency : Int
  Octas : UInt64
  APT : Float64
  Err : Option (GoError E)
deriving DecidableEq, Repr

/-- What a run of `checkOne` leaves: the returned row, the collaborator calls it
made, in order, and the world afterwards. -/
structure CheckOutcome (W E : Type) where
  result : row E
  calls : List Call
  world : W

/-- The error `fmt.Errorf("missing RPC URL (set APTOS_RPC_URL_%s)",
strings.TrimPrefix(name, "RPC_"))` (main.go, line 54). -/
def missingEndpointError {E : Type} (name : GoString) : GoError E :=
  .errorf (lit "missing RPC URL (set APTOS_RPC_URL_" ++ TrimPrefix name (lit "RPC_") ++ lit ")")

/-- The error `fmt.Errorf("NewClient: %w", err)` (main.go, line 66). -/
def newClientError {E : Type} (errorText : E → GoString) (err : E) : GoError E :=
  .wrapf (lit "NewClient: " ++ errorText err) err

/-- The error `fmt.Errorf("invalid APTOS_ACCOUNT: %w", err)` (main.go, line 73). -/
def invalidAccountError {E : Type} (errorText : E → GoString) (err : E) : GoError E :=
  .wrapf (lit "invalid APTOS_ACCOUNT: " ++ errorText err) err

/-- Function `checkOne` (main.go, lines 50-90). -/
def checkOne {W Client Addr E : Type} (sdk : Sdk W Client Addr E)
    (name rpcBaseV1 accountStr : GoString) (w : W) : CheckOutcome W E :=
  let r : row E :=
    { Name := name, BaseURL := normalizeNodeURL rpcBaseV1,
      Latency := 0, Octas := 0, APT := Float64.zero, Err := none }
  if r.BaseURL = [] then
    ⟨{ r with Err := some (missingEndpointError name) }, [], w⟩
  else
    match sdk.NewClient r.BaseURL w with
    | (.error err, w1) =>
      ⟨{ r with Err := some (newClientError sdk.errorText err) },
        [.newClient r.BaseURL], w1⟩
    | (.ok client, w1) =>
      match sdk.ParseStringRelaxed accountStr w1 with
      | (.error err, w2) =>
        ⟨{ r with Err := some (invalidAccountError sdk.errorText err) },
          [.newClient r.BaseURL, .parseStringRelaxed accountStr], w2⟩
      | (.ok addr, w2) =>
        let start := sdk.now w2
        match sdk.AccountAPTBalance client addr w2 with
        | ((octas, err), w3) =>
          let r := { r with Latency := durationSub (sdk.now w3) start }
          let calls :=
            [.newClient r.BaseURL, .parseStringRelaxed accountStr, .accountAPTBalance]
          match err with
          | some e => ⟨{ r with Err := some (.sdk e) }, calls, w3⟩
          | none =>
            ⟨{ r with Octas := octas,
                      APT := Float64.div (Float64.ofNat octas.toNat) octasPerAPT },
              calls, w3⟩

/-! ## `main` -/

/-- Function `env` (main.go, lines 22-24); `getenv` is `os.Getenv`. -/
def env (getenv : GoString → GoString) (key : GoString) : GoString :=
  TrimSpace (getenv key)

/-- Method `Duration.Round(m)` of Go's `time` package: `d` rounded to the nearest
multiple of `m`, halfway values away from zero, saturating at the ends of the
`int64` range; `d` itself when `m ≤ 0`. -/
def durationRound (d m : Int) : Int :=
  if m ≤ 0 then d
  else
    let r := Int.tmod d m
    if d < 0 then
      let r := -r
      if r + r < m then d + r
      else if minDuration ≤ d - m + r then d - m + r
      else minDuration
    else
      if r + r < m then d - r
      else if d + m - r ≤ maxDuration then d + m - r
      else maxDuration

/-- The constant `time.Millisecond`, in nanoseconds. -/
def millisecond : Int := 1000000

/-- One print call of `main` on standard output, with its arguments. -/
inductive Line (E : Type) where
  /-- A call `fmt.Println(s)`. -/
  | println (s : GoString)
  /-- The call `fmt.Printf("Account: %s\n\n", account)`. -/
  | account (account : GoString)
  /-- A call `fmt.Printf("%-6s  %-10s  %-14s  %-12s  %s\n", ...)` with five
  strings: the two header lines and the row of a failed check. -/
  | strRow (name latency octas apt url : GoString)
  /-- The call `fmt.Printf("        ↳ %v\n", res.Err)`. -/
  | errDetail (err : GoError E)
  /-- The call `fmt.Printf("%-6s  %-10s  %-14d  %-12.8f  %s\n", ...)`: the row
  of a successful check. -/
  | okRow (name : GoString) (latency : Int) (octas : UInt64) (apt : Float64)
      (url : GoString)
deriving DecidableEq, Repr

/-- What the body of the loop of `main` prints for the row `res`
(main.go, lines 128-139). -/
def printRow {E : Type} (res : row E) : List (Line E) :=
  match res.Err with
  | some err =>
    [.strRow res.Name (lit "-") (lit "ERROR") (lit "-") (shortURL res.BaseURL),
     .errDetail err]
  | none =>
    [.okRow res.Name (durationRound res.Latency millisecond) res.Octas res.APT
      (shortURL res.BaseURL)]

/-- What a run of `main` leaves. -/
structure MainOutcome (W E : Type) where
  stdout : List (Line E)
  stderr : List GoString
  exitCode : Nat
  calls : List Call
  world : W

/-- The loop `for _, t := range targets` of `main` (main.go, lines 126-140),
started with the output `out` and the calls `calls` made so far. -/
def checkTargets {W Client Addr E : Type} (sdk : Sdk W Client Addr E)
    (account : GoString) :
    List (GoString × GoString) → List (Line E) → List Call → W →
      List (Line E) × List Call × W
  | [], out, calls, w => (out, calls, w)
  | (name, url) :: rest, out, calls, w =>
    let res := checkOne sdk name url account w
    checkTargets sdk account rest (out ++ printRow res.result) (calls ++ res.calls)
      res.world

/-- The lines `main` prints before the loop (main.go, lines 120-124). -/
def banner {E : Type} (account : GoString) : List (Line E) :=
  [.println (lit "Aptos APT Balance (via aptos-go-sdk Client.AccountAPTBalance)"),
   .println (lit "--------------------------------------------------------------------------"),
   .account account,
   .strRow (lit "NAME") (lit "LATENCY") (lit "OCTAS") (lit "APT") (lit "RPC (base /v1)"),
   .strRow (lit "------") (lit "----------") (lit "--------------") (lit "------------")
     (lit "------------------------------")]

/-- Function `main` (main.go, lines 92-142).  `getenv` is `os.Getenv` as it answers after
the call `godotenv.Load()` of line 93. -/
def main {W Client Addr E : Type} (sdk : Sdk W Client Addr E)
    (getenv : GoString → GoString) (w : W) : MainOutcome W E :=
  let account := env getenv (lit "APTOS_ACCOUNT")
  if account = [] then
    { stdout := [], stderr := [lit "APTOS_ACCOUNT is required"], exitCode := 1,
      calls := [], world := w }
  else
    let rpc1 := env getenv (lit "APTOS_RPC_URL_1")
    let rpc2 := env getenv (lit "APTOS_RPC_URL_2")
    let rpc3 := env getenv (lit "APTOS_RPC_URL_3")
    let rpc1 := if rpc1 = [] then env getenv (lit "APTOS_RPC_URL") else rpc1
    let targets := [(lit "RPC_1", rpc1), (lit "RPC_2", rpc2), (lit "RPC_3", rpc3)]
    match checkTargets sdk account targets (banner account) [] w with
    | (out, calls, w') =>
      { stdout := out, stderr := [], exitCode := 0, calls := calls, world := w' }

/-! ## Vocabulary of the properties -/

/-- The UTF-8 encoding of one white-space rune. -/
def isSpaceRune : GoString → Bool
  | [a] => isAsciiSpace a
  | [a, b] => isSpace2 a b
  | [a, b, c] => isSpace3 a b c
  | _ => false

/-- The slot named by a result row of the table: the first column of the row of
a successful check, or of a row whose third column is the marker `ERROR`.
Other lines (banner, header, error detail) are not result rows. -/
def resultRowName {E : Type} : Line E → Option GoString
  | .okRow name _ _ _ _ => some name
  | .strRow name _ octas _ _ => if octas = lit "ERROR" then some name else none
  | _ => none

/-- A base URL of exactly 70 bytes. -/
def url70 : GoString :=
  lit "https://host.example/0123456789/0123456789/0123456789/0123456789/ab/v1"

/-- A base URL of exactly 71 bytes. -/
def url71 : GoString :=
  lit "https://host.example/0123456789/0123456789/0123456789/0123456789/abc/v1"

/-- A scripted collaborator on which the model can be run: the world is a
clock in nanoseconds, clients and addresses are the strings they were built
from, errors are their texts.  Client construction wants an `https://` URL,
address parsing wants a leading `0x`, and the balance query answers
123456789 octas on a base URL ending in `/v1` and fails elsewhere. -/
def scriptedSdk : Sdk Nat GoString GoString GoString where
  NewClient := fun url w =>
    (if HasPrefix url (lit "https://") then .ok url
     else .error (lit "unsupported protocol scheme"), w + 1)
  ParseStringRelaxed := fun s w =>
    (if HasPrefix s (lit "0x") then .ok s else .error (lit "missing 0x"), w + 1)
  AccountAPTBalance := fun client _ w =>
    (if HasSuffix client (lit "/v1") then (123456789, none)
     else (0, some (lit "404 Not Found")), w + 25400000)
  now := fun w => (w : Int)
  errorText := fun e => e

/-- A scripted environment: the account and the first two endpoints are set. -/
def scriptedGetenv (key : GoString) : GoString :=
  if key = lit "APTOS_ACCOUNT" then lit " 0x1 "
  else if key = lit "APTOS_RPC_URL" then lit "https://legacy/v1/"
  else if key = lit "APTOS_RPC_URL_2" then lit "https://host/v1/view"
  else []

/-! ## Lemmas on white-space trimming -/

theorem trimLeftSpace_suffix (s : GoString) : trimLeftSpace s <:+ s := by
  induction s using trimLeftSpace.induct with
  | case1 => simp [trimLeftSpace]
  | case2 a s1 h ih =>
    rw [trimLeftSpace.eq_def]; simp only [h, if_true]
    exact ih.trans (List.suffix_cons a s1)
  | case3 a h =>
    rw [trimLeftSpace.eq_def]; simp [h]
  | case4 a h b s3 h2 ih =>
    rw [trimLeftSpace.eq_def]; simp only [h, h2, if_true]
    exact ih.trans ((List.suffix_cons b s3).trans (List.suffix_cons a _))
  | case5 a h b h2 =>
    rw [trimLeftSpace.eq_def]; simp [h, h2]
  | case6 a h b h2 c s3 h3 ih =>
    rw [trimLeftSpace.eq_def]; simp only [h, h2, h3, if_true]
    exact ih.trans ((List.suffix_cons c s3).trans
      ((List.suffix_cons b _).trans (List.suffix_cons a _)))
  | case7 a h b h2 c s3 h3 =>
    rw [trimLeftSpace.eq_def]; simp [h, h2, h3]

theorem trimLeftSpace_idem (s : GoString) :
    trimLeftSpace (trimLeftSpace s) = trimLeftSpace s := by
  induction s using trimLeftSpace.induct with
  | case1 => simp [trimLeftSpace]
  | case2 a s1 h ih =>
    rw [trimLeftSpace.eq_def (a :: s1)]; simp only [h, if_true]; exact ih
  | case3 a h =>
    rw [trimLeftSpace.eq_def [a]]; simp only [h]; simp
    rw [trimLeftSpace.eq_def]; simp [h]
  | case4 a h b s3 h2 ih =>
    rw [trimLeftSpace.eq_def (a :: b :: s3)]; simp only [h, h2, if_true]; simp; exact ih
  | case5 a h b h2 =>
    rw [trimLeftSpace.eq_def [a, b]]; simp only [h, h2]; simp
    rw [trimLeftSpace.eq_def]; simp [h, h2]
  | case6 a h b h2 c s3 h3 ih =>
    rw [trimLeftSpace.eq_def (a :: b :: c :: s3)]; simp only [h, h2, h3, if_true]; simp
    exact ih
  | case7 a h b h2 c s3 h3 =>
    rw [trimLeftSpace.eq_def (a :: b :: c :: s3)]; simp only [h, h2, h3]; simp
    rw [trimLeftSpace.eq_def]; simp [h, h2, h3]

theorem trimLeftSpace_slash_cons (t : GoString) :
    trimLeftSpace (slash :: t) = slash :: t := by
  rw [trimLeftSpace.eq_def]
  simp [slash, isAsciiSpace, isSpace2, isSpace3]
  split
  · rfl
  · split <;> rfl

theorem trimLeftSpace_append_slash (h t : GoString) (hh : trimLeftSpace h = h) :
    trimLeftSpace (h ++ slash :: t) = h ++ slash :: t := by
  induction h using trimLeftSpace.induct with
  | case1 => simpa using trimLeftSpace_slash_cons t
  | case2 a s1 h1 _ =>
    rw [trimLeftSpace.eq_def] at hh; simp only [h1, if_true] at hh
    have := (trimLeftSpace_suffix s1).length_le
    rw [hh] at this; simp at this
  | case3 a h1 =>
    rw [trimLeftSpace.eq_def]
    simp [h1, slash, isSpace2, isSpace3]
    split <;> rfl
  | case4 a h1 b s3 h2 _ =>
    rw [trimLeftSpace.eq_def] at hh; simp [h1, h2] at hh
    have := (trimLeftSpace_suffix s3).length_le
    rw [hh] at this; simp at this; omega
  | case5 a h1 b h2 =>
    rw [trimLeftSpace.eq_def]
    simp [h1, h2, slash, isSpace3]
  | case6 a h1 b h2 c s3 h3 _ =>
    rw [trimLeftSpace.eq_def] at hh; simp [h1, h2, h3] at hh
    have := (trimLeftSpace_suffix s3).length_le
    rw [hh] at this; simp at this; omega
  | case7 a h1 b h2 c s3 h3 =>
    rw [trimLeftSpace.eq_def]
    simp [h1, h2, h3]

theorem trimLeftSpace_keeps_slash_suffix (x t : GoString) :
    (slash :: t) <:+ trimLeftSpace (x ++ slash :: t) := by
  induction x using trimLeftSpace.induct with
  | case1 => rw [List.nil_append, trimLeftSpace_slash_cons]
  | case2 a s1 h1 ih =>
    rw [List.cons_append, trimLeftSpace.eq_def]; simp only [h1, if_true]; exact ih
  | case3 a h1 =>
    rw [trimLeftSpace_append_slash [a] t (by rw [trimLeftSpace.eq_def]; simp [h1])]
    exact List.suffix_append _ _
  | case4 a h1 b s3 h2 ih =>
    rw [List.cons_append, List.cons_append, trimLeftSpace.eq_def]
    simp only [h1, h2, if_true]; exact ih
  | case5 a h1 b h2 =>
    rw [trimLeftSpace_append_slash [a, b] t (by rw [trimLeftSpace.eq_def]; simp [h1, h2])]
    exact List.suffix_append _ _
  | case6 a h1 b h2 c s3 h3 ih =>
    rw [List.cons_append, List.cons_append, List.cons_append, trimLeftSpace.eq_def]
    simp only [h1, h2, h3, if_true]; exact ih
  | case7 a h1 b h2 c s3 h3 =>
    rw [trimLeftSpace_append_slash (a :: b :: c :: s3) t
      (by rw [trimLeftSpace.eq_def]; simp [h1, h2, h3])]
    exact List.suffix_append _ _

theorem trimRightSpaceRev_suffix (r : GoString) : trimRightSpaceRev r <:+ r := by
  induction r using trimRightSpaceRev.induct with
  | case1 => simp [trimRightSpaceRev]
  | case2 c r1 h ih =>
    rw [trimRightSpaceRev.eq_def]; simp only [h, if_true]
    exact ih.trans (List.suffix_cons c r1)
  | case3 c h =>
    rw [trimRightSpaceRev.eq_def]; simp [h]
  | case4 c h b r2 h2 ih =>
    rw [trimRightSpaceRev.eq_def]; simp only [h, h2, if_true]
    exact ih.trans ((List.suffix_cons b r2).trans (List.suffix_cons c _))
  | case5 c h b h2 =>
    rw [trimRightSpaceRev.eq_def]; simp [h, h2]
  | case6 c h b h2 a r3 h3 ih =>
    rw [trimRightSpaceRev.eq_def]; simp only [h, h2, h3, if_true]
    exact ih.trans ((List.suffix_cons a r3).trans
      ((List.suffix_cons b _).trans (List.suffix_cons c _)))
  | case7 c h b h2 a r3 h3 =>
    rw [trimRightSpaceRev.eq_def]; simp [h, h2, h3]

theorem trimRightSpace_isPrefixOf_self (s : GoString) : trimRightSpace s <+: s := by
  have h := trimRightSpaceRev_suffix s.reverse
  rw [← List.reverse_prefix, List.reverse_reverse] at h
  exact h

theorem trimRightSpace_concat (s : GoString) (c : UInt8)
    (h1 : isAsciiSpace c = false) (h2 : ∀ b, isSpace2 b c = false)
    (h3 : ∀ a b, isSpace3 a b c = false) :
    trimRightSpace (s ++ [c]) = s ++ [c] := by
  have key : ∀ r : GoString, trimRightSpaceRev (c :: r) = c :: r := by
    intro r
    rw [trimRightSpaceRev.eq_def]
    rcases r with _ | ⟨b, _ | ⟨a, r⟩⟩ <;> simp [h1, h2, h3]
  simp [trimRightSpace, key]

theorem trimSpace_eq_trimLeft (s : GoString) (h : TrimSpace s = s) :
    trimLeftSpace s = s := by
  have h1 := (trimRightSpace_isPrefixOf_self (trimLeftSpace s)).length_le
  have h2 := trimLeftSpace_suffix s
  have h3 : (TrimSpace s).length = s.length := by rw [h]
  unfold TrimSpace at h3
  exact h2.eq_of_length (by have := h2.length_le; omega)

theorem trimSpace_eq_trimRight (s : GoString) (h : TrimSpace s = s) :
    trimRightSpace s = s := by
  have h1 := trimSpace_eq_trimLeft s h
  unfold TrimSpace at h
  rw [h1] at h
  exact h

/-! ## Lemmas on suffixes and on `normalizeNodeURL` -/

theorem hasSuffix_iff (s suf : GoString) : HasSuffix s suf = true ↔ suf <:+ s := by
  unfold HasSuffix
  exact List.isSuffixOf_iff_suffix

theorem hasSuffix_eq_false_iff (s suf : GoString) : HasSuffix s suf = false ↔ ¬ suf <:+ s := by
  rw [← hasSuffix_iff]; simp

theorem trimSuffix_append (h suf : GoString) : TrimSuffix (h ++ suf) suf = h := by
  have : HasSuffix (h ++ suf) suf = true := (hasSuffix_iff _ _).2 (List.suffix_append _ _)
  simp [TrimSuffix, this]

/-- A suffix of a string that ends in the byte `c` ends in `c` as well. -/
theorem last_eq_of_suffix_concat {p s : GoString} {d c : UInt8}
    (h : p ++ [d] <:+ s ++ [c]) : d = c := by
  obtain ⟨t, ht⟩ := h
  have := congrArg List.getLast? ht
  rw [← List.append_assoc] at this
  simpa using this

theorem suffix_append_right_iff (a b c : GoString) : a ++ c <:+ b ++ c ↔ a <:+ b := by
  constructor
  · rintro ⟨t, ht⟩
    refine ⟨t, ?_⟩
    rw [← List.append_assoc] at ht
    exact List.append_cancel_right ht
  · rintro ⟨t, ht⟩
    exact ⟨t, by rw [← ht, List.append_assoc]⟩

theorem trimRightByte_concat_ne (s : GoString) (c : UInt8) (h : c ≠ slash) :
    TrimRightByte (s ++ [c]) slash = s ++ [c] := by
  unfold TrimRightByte
  exact List.rdropWhile_concat_neg _ _ _ (by simpa using h)

theorem trimRightByte_concat_slash (s : GoString) :
    TrimRightByte (s ++ [slash]) slash = TrimRightByte s slash := by
  unfold TrimRightByte
  exact List.rdropWhile_concat_pos _ _ _ (by simp)

theorem trimRightByte_append_replicate (s : GoString) (n : Nat) :
    TrimRightByte (s ++ List.replicate n slash) slash = TrimRightByte s slash := by
  induction n with
  | zero => simp
  | succ n ih =>
    rw [List.replicate_succ', ← List.append_assoc, trimRightByte_concat_slash, ih]

/-- The steps of `normalizeNodeURL` after the white-space trimming. -/
theorem normalizeNodeURL_of_trimSpace_eq (u : GoString) (h : TrimSpace u = u) :
    normalizeNodeURL u =
      if HasSuffix (TrimRightByte u slash) v1ViewSuffix then
        TrimSuffix (TrimRightByte u slash) viewSuffix
      else if HasSuffix (TrimRightByte u slash) viewSuffix then
        TrimSuffix (TrimRightByte u slash) viewSuffix
      else TrimRightByte u slash := by
  simp only [normalizeNodeURL, h]

theorem trimSpace_append_slash_concat (h t : GoString) (c : UInt8)
    (hh : trimLeftSpace h = h)
    (h1 : isAsciiSpace c = false) (h2 : ∀ b, isSpace2 b c = false)
    (h3 : ∀ a b, isSpace3 a b c = false) :
    TrimSpace (h ++ slash :: (t ++ [c])) = h ++ slash :: (t ++ [c]) := by
  unfold TrimSpace
  rw [trimLeftSpace_append_slash h _ hh]
  have : h ++ slash :: (t ++ [c]) = (h ++ slash :: t) ++ [c] := by simp
  rw [this]
  exact trimRightSpace_concat _ c h1 h2 h3

theorem normalizeNodeURL_append_view (h : GoString) (hh : trimLeftSpace h = h) :
    normalizeNodeURL (h ++ viewSuffix) = h := by
  have e : h ++ viewSuffix = h ++ slash :: ([0x76, 0x69, 0x65] ++ [0x77]) := rfl
  have hT : TrimSpace (h ++ viewSuffix) = h ++ viewSuffix := by
    rw [e]
    exact trimSpace_append_slash_concat h _ _ hh (by decide)
      (by intro b; simp [isSpace2]) (by intro a b; simp [isSpace3])
  have hR : TrimRightByte (h ++ viewSuffix) slash = h ++ viewSuffix := by
    have e2 : h ++ viewSuffix = (h ++ [0x2F, 0x76, 0x69, 0x65]) ++ [0x77] := by
      simp [viewSuffix]
    rw [e2]
    exact trimRightByte_concat_ne _ _ (by decide)
  have hS : HasSuffix (h ++ viewSuffix) viewSuffix = true :=
    (hasSuffix_iff _ _).2 (List.suffix_append _ _)
  rw [normalizeNodeURL_of_trimSpace_eq _ hT, hR, trimSuffix_append, hS]
  simp

theorem normalizeNodeURL_append_view_slash (h : GoString) (hh : trimLeftSpace h = h) :
    normalizeNodeURL (h ++ viewSuffix ++ [slash]) = h := by
  have e : h ++ viewSuffix ++ [slash] = h ++ slash :: ([0x76, 0x69, 0x65, 0x77] ++ [slash]) := by
    simp [viewSuffix, slash]
  have hT : TrimSpace (h ++ viewSuffix ++ [slash]) = h ++ viewSuffix ++ [slash] := by
    rw [e]
    exact trimSpace_append_slash_concat h _ _ hh (by decide)
      (by intro b; simp [isSpace2, slash]) (by intro a b; simp [isSpace3, slash])
  have hR : TrimRightByte (h ++ viewSuffix ++ [slash]) slash = h ++ viewSuffix := by
    rw [trimRightByte_concat_slash]
    have e2 : h ++ viewSuffix = (h ++ [0x2F, 0x76, 0x69, 0x65]) ++ [0x77] := by
      simp [viewSuffix]
    rw [e2]
    exact trimRightByte_concat_ne _ _ (by decide)
  have hS : HasSuffix (h ++ viewSuffix) viewSuffix = true :=
    (hasSuffix_iff _ _).2 (List.suffix_append _ _)
  rw [normalizeNodeURL_of_trimSpace_eq _ hT, hR, trimSuffix_append, hS]
  simp

theorem not_suffix_of_last_ne {p s : GoString} {d c : UInt8} (h : d ≠ c) :
    ¬ (p ++ [d] <:+ s ++ [c]) :=
  fun hs => h (last_eq_of_suffix_concat hs)

theorem trimSpace_of_ends_v1 (u : GoString) (hu : v1Suffix <:+ u) :
    TrimSpace u = trimLeftSpace u ∧ v1Suffix <:+ trimLeftSpace u := by
  obtain ⟨x, rfl⟩ := hu
  have hs : v1Suffix <:+ trimLeftSpace (x ++ v1Suffix) :=
    trimLeftSpace_keeps_slash_suffix x [0x76, 0x31]
  refine ⟨?_, hs⟩
  obtain ⟨y, hy⟩ := hs
  unfold TrimSpace
  rw [← hy]
  have e : y ++ v1Suffix = (y ++ [0x2F, 0x76]) ++ [0x31] := by simp [v1Suffix]
  rw [e]
  exact trimRightSpace_concat _ _ (by decide) (by intro b; simp [isSpace2])
    (by intro a b; simp [isSpace3])

theorem normalizeNodeURL_of_ends_v1 (t : GoString) (ht : TrimSpace t = t)
    (hs : v1Suffix <:+ t) : normalizeNodeURL t = t := by
  obtain ⟨y, rfl⟩ := hs
  have e : y ++ v1Suffix = (y ++ [0x2F, 0x76]) ++ [0x31] := by simp [v1Suffix]
  have hR : TrimRightByte (y ++ v1Suffix) slash = y ++ v1Suffix := by
    rw [e]; exact trimRightByte_concat_ne _ _ (by decide)
  have h1 : HasSuffix (y ++ v1Suffix) v1ViewSuffix = false := by
    rw [hasSuffix_eq_false_iff, e]
    have : v1ViewSuffix = [0x2F, 0x76, 0x31, 0x2F, 0x76, 0x69, 0x65] ++ [0x77] := rfl
    rw [this]
    exact not_suffix_of_last_ne (by decide)
  have h2 : HasSuffix (y ++ v1Suffix) viewSuffix = false := by
    rw [hasSuffix_eq_false_iff, e]
    have : viewSuffix = [0x2F, 0x76, 0x69, 0x65] ++ [0x77] := rfl
    rw [this]
    exact not_suffix_of_last_ne (by decide)
  rw [normalizeNodeURL_of_trimSpace_eq _ ht, hR, h1, h2]
  simp

theorem normalizeNodeURL_trimSpace (u : GoString) (h : TrimSpace (TrimSpace u) = TrimSpace u) :
    normalizeNodeURL (TrimSpace u) = normalizeNodeURL u := by
  simp only [normalizeNodeURL, h]

theorem hasSuffix_normalizeNodeURL_v1View (u : GoString) :
    HasSuffix (normalizeNodeURL u) v1ViewSuffix =
      HasSuffix (TrimRightByte (TrimSpace u) slash) (v1ViewSuffix ++ viewSuffix) := by
  unfold normalizeNodeURL
  simp only []
  generalize TrimRightByte (TrimSpace u) slash = t
  have hv : viewSuffix = [0x2F, 0x76, 0x69, 0x65] ++ [0x77] := rfl
  have hv1 : v1ViewSuffix = v1Suffix ++ viewSuffix := rfl
  have hv1' : v1ViewSuffix = [0x2F, 0x76, 0x31, 0x2F, 0x76, 0x69, 0x65] ++ [0x77] := rfl
  have hv1s : v1Suffix = [0x2F, 0x76] ++ [0x31] := rfl
  by_cases h1 : HasSuffix t v1ViewSuffix = true
  · rw [if_pos h1]
    obtain ⟨x, rfl⟩ := (hasSuffix_iff _ _).1 h1
    have e : x ++ v1ViewSuffix = (x ++ v1Suffix) ++ viewSuffix := by
      rw [hv1, List.append_assoc]
    rw [e, trimSuffix_append]
    have l : HasSuffix (x ++ v1Suffix) v1ViewSuffix = false := by
      rw [hasSuffix_eq_false_iff, hv1s, ← List.append_assoc, hv1']
      exact not_suffix_of_last_ne (by decide)
    have r : HasSuffix (x ++ v1Suffix ++ viewSuffix) (v1ViewSuffix ++ viewSuffix) = false := by
      rw [hasSuffix_eq_false_iff, suffix_append_right_iff, ← hasSuffix_eq_false_iff]
      exact l
    rw [l, r]
  · rw [if_neg h1]
    by_cases h2 : HasSuffix t viewSuffix = true
    · rw [if_pos h2]
      obtain ⟨y, rfl⟩ := (hasSuffix_iff _ _).1 h2
      rw [trimSuffix_append, Bool.eq_iff_iff, hasSuffix_iff, hasSuffix_iff,
        suffix_append_right_iff]
    · rw [if_neg h2]
      have l : HasSuffix t v1ViewSuffix = false := by simpa using h1
      have r : HasSuffix t (v1ViewSuffix ++ viewSuffix) = false := by
        rw [hasSuffix_eq_false_iff]
        intro hs
        exact h2 ((hasSuffix_iff _ _).2 ((List.suffix_append _ _).trans hs))
      rw [l, r]

theorem trimSpace_append_replicate_slash (s : GoString) (n : Nat) (hs : TrimSpace s = s) :
    TrimSpace (s ++ List.replicate n slash) = s ++ List.replicate n slash := by
  cases n with
  | zero => simpa using hs
  | succ n =>
    unfold TrimSpace
    have hl : trimLeftSpace (s ++ List.replicate (n + 1) slash) =
        s ++ List.replicate (n + 1) slash := by
      rw [List.replicate_succ]
      exact trimLeftSpace_append_slash s _ (trimSpace_eq_trimLeft s hs)
    rw [hl, List.replicate_succ', ← List.append_assoc]
    exact trimRightSpace_concat _ _ (by decide) (by intro b; simp [isSpace2, slash])
      (by intro a b; simp [isSpace3, slash])

theorem shortURL_eq (u : GoString) :
    shortURL u =
      if (TrimSpace u).length ≤ 70 then TrimSpace u
      else (TrimSpace u).take 67 ++ ellipsis := by
  unfold shortURL
  simp only []
  by_cases h : TrimSpace u = []
  · simp [h]
  · simp [h]

/-- A prefix of a string without leading white space has no leading white space. -/
theorem trimLeftSpace_eq_of_isPrefixOf (p l : GoString) (hp : p <+: l)
    (hl : trimLeftSpace l = l) : trimLeftSpace p = p := by
  obtain ⟨t, rfl⟩ := hp
  induction p using trimLeftSpace.induct with
  | case1 => simp [trimLeftSpace]
  | case2 a s1 h1 _ =>
    rw [List.cons_append, trimLeftSpace.eq_def] at hl; simp only [h1, if_true] at hl
    have := (trimLeftSpace_suffix (s1 ++ t)).length_le
    rw [hl] at this; simp at this
  | case3 a h1 => rw [trimLeftSpace.eq_def]; simp [h1]
  | case4 a h1 b s3 h2 _ =>
    rw [List.cons_append, List.cons_append, trimLeftSpace.eq_def] at hl
    simp [h1, h2] at hl
    have := (trimLeftSpace_suffix (s3 ++ t)).length_le
    rw [hl] at this; simp at this; omega
  | case5 a h1 b h2 => rw [trimLeftSpace.eq_def]; simp [h1, h2]
  | case6 a h1 b h2 c s3 h3 _ =>
    rw [List.cons_append, List.cons_append, List.cons_append, trimLeftSpace.eq_def] at hl
    simp [h1, h2, h3] at hl
    have := (trimLeftSpace_suffix (s3 ++ t)).length_le
    rw [hl] at this; simp at this; omega
  | case7 a h1 b h2 c s3 h3 => rw [trimLeftSpace.eq_def]; simp [h1, h2, h3]

theorem trimSuffix_isPrefixOf_self (s suf : GoString) : TrimSuffix s suf <+: s := by
  unfold TrimSuffix
  split
  · exact List.take_prefix _ _
  · exact List.prefix_refl _

theorem normalizeNodeURL_isPrefixOf_trimLeft (u : GoString) :
    normalizeNodeURL u <+: trimLeftSpace u := by
  have h1 : TrimRightByte (TrimSpace u) slash <+: trimLeftSpace u :=
    (List.rdropWhile_prefix _ _).trans (trimRightSpace_isPrefixOf_self _)
  unfold normalizeNodeURL
  simp only []
  split
  · exact (trimSuffix_isPrefixOf_self _ _).trans h1
  · split
    · exact (trimSuffix_isPrefixOf_self _ _).trans h1
    · exact h1

/-- A normalized URL never starts with white space. -/
theorem trimLeftSpace_normalizeNodeURL (raw : GoString) :
    trimLeftSpace (normalizeNodeURL raw) = normalizeNodeURL raw :=
  trimLeftSpace_eq_of_isPrefixOf _ _ (normalizeNodeURL_isPrefixOf_trimLeft raw)
    (trimLeftSpace_idem raw)

/-- A normalized URL that does not end in white space has no surrounding white
space. -/
theorem trimSpace_normalizeNodeURL (raw : GoString)
    (h : trimRightSpace (normalizeNodeURL raw) = normalizeNodeURL raw) :
    TrimSpace (normalizeNodeURL raw) = normalizeNodeURL raw := by
  unfold TrimSpace
  rw [trimLeftSpace_normalizeNodeURL, h]

theorem trimLeftSpace_spaceRune_append (e s : GoString) (he : isSpaceRune e = true) :
    trimLeftSpace (e ++ s) = trimLeftSpace s := by
  rcases e with _ | ⟨a, _ | ⟨b, _ | ⟨c, _ | ⟨d, e⟩⟩⟩⟩
  · simp [isSpaceRune] at he
  · simp only [isSpaceRune] at he
    rw [List.singleton_append, trimLeftSpace.eq_def]; simp [he]
  · simp only [isSpaceRune] at he
    have ha : isAsciiSpace a = false := by
      simp only [isSpace2, Bool.and_eq_true, beq_iff_eq] at he
      rw [he.1]; decide
    show trimLeftSpace (a :: b :: s) = trimLeftSpace s
    rw [trimLeftSpace.eq_def]; simp [ha, he]
  · simp only [isSpaceRune] at he
    have ha : isAsciiSpace a = false ∧ isSpace2 a b = false := by
      simp only [isSpace3, Bool.or_eq_true, Bool.and_eq_true, beq_iff_eq] at he
      rcases he with ((h | h) | h) | h <;> (rw [h.1.1]; simp [isAsciiSpace, isSpace2])
    show trimLeftSpace (a :: b :: c :: s) = trimLeftSpace s
    rw [trimLeftSpace.eq_def]; simp [ha.1, ha.2, he]
  · simp [isSpaceRune] at he

theorem trimLeftSpace_flatten_spaceRunes (runes : List GoString)
    (h : ∀ e ∈ runes, isSpaceRune e = true) : trimLeftSpace runes.flatten = [] := by
  induction runes with
  | nil => simp [trimLeftSpace]
  | cons e rest ih =>
    rw [List.flatten_cons, trimLeftSpace_spaceRune_append e _ (h e (List.mem_cons_self _ _))]
    exact ih (fun e' he' => h e' (List.mem_cons_of_mem _ he'))

theorem normalizeNodeURL_of_trimSpace_nil (u : GoString) (h : TrimSpace u = []) :
    normalizeNodeURL u = [] := by
  simp only [normalizeNodeURL, h]
  decide

theorem trimPrefix_append (p k : GoString) : TrimPrefix (p ++ k) p = k := by
  have : HasPrefix (p ++ k) p = true := by
    unfold HasPrefix
    exact List.isPrefixOf_iff_prefix.2 (List.prefix_append _ _)
  simp [TrimPrefix, this]

/-! ## Properties of `checkOne` -/

theorem checkOne_of_empty {W Client Addr E : Type} (sdk : Sdk W Client Addr E)
    (name raw acct : GoString) (w : W)
    (h : normalizeNodeURL raw = []) :
    checkOne sdk name raw acct w =
      ⟨{ Name := name, BaseURL := [], Latency := 0, Octas := 0, APT := Float64.zero,
         Err := some (missingEndpointError name) }, [], w⟩ := by
  simp [checkOne, h]

theorem checkOne_of_newClient_error {W Client Addr E : Type} (sdk : Sdk W Client Addr E)
    (name raw acct : GoString)
    (w w1 : W) (e : E) (h : normalizeNodeURL raw ≠ [])
    (h1 : sdk.NewClient (normalizeNodeURL raw) w = (.error e, w1)) :
    checkOne sdk name raw acct w =
      ⟨{ Name := name, BaseURL := normalizeNodeURL raw, Latency := 0, Octas := 0,
         APT := Float64.zero, Err := some (newClientError sdk.errorText e) },
       [.newClient (normalizeNodeURL raw)], w1⟩ := by
  simp [checkOne, h, h1]

theorem checkOne_of_parse_error {W Client Addr E : Type} (sdk : Sdk W Client Addr E)
    (name raw acct : GoString)
    (w w1 w2 : W) (client : Client) (e : E) (h : normalizeNodeURL raw ≠ [])
    (h1 : sdk.NewClient (normalizeNodeURL raw) w = (.ok client, w1))
    (h2 : sdk.ParseStringRelaxed acct w1 = (.error e, w2)) :
    checkOne sdk name raw acct w =
      ⟨{ Name := name, BaseURL := normalizeNodeURL raw, Latency := 0, Octas := 0,
         APT := Float64.zero, Err := some (invalidAccountError sdk.errorText e) },
       [.newClient (normalizeNodeURL raw), .parseStringRelaxed acct], w2⟩ := by
  simp [checkOne, h, h1, h2]

theorem checkOne_of_query_error {W Client Addr E : Type} (sdk : Sdk W Client Addr E)
    (name raw acct : GoString)
    (w w1 w2 w3 : W) (client : Client) (addr : Addr) (v : UInt64) (e : E)
    (h : normalizeNodeURL raw ≠ [])
    (h1 : sdk.NewClient (normalizeNodeURL raw) w = (.ok client, w1))
    (h2 : sdk.ParseStringRelaxed acct w1 = (.ok addr, w2))
    (h3 : sdk.AccountAPTBalance client addr w2 = ((v, some e), w3)) :
    checkOne sdk name raw acct w =
      ⟨{ Name := name, BaseURL := normalizeNodeURL raw,
         Latency := durationSub (sdk.now w3) (sdk.now w2), Octas := 0,
         APT := Float64.zero, Err := some (.sdk e) },
       [.newClient (normalizeNodeURL raw), .parseStringRelaxed acct, .accountAPTBalance],
       w3⟩ := by
  simp [checkOne, h, h1, h2, h3]

theorem checkOne_of_success {W Client Addr E : Type} (sdk : Sdk W Client Addr E)
    (name raw acct : GoString)
    (w w1 w2 w3 : W) (client : Client) (addr : Addr) (v : UInt64)
    (h : normalizeNodeURL raw ≠ [])
    (h1 : sdk.NewClient (normalizeNodeURL raw) w = (.ok client, w1))
    (h2 : sdk.ParseStringRelaxed acct w1 = (.ok addr, w2))
    (h3 : sdk.AccountAPTBalance client addr w2 = ((v, none), w3)) :
    checkOne sdk name raw acct w =
      ⟨{ Name := name, BaseURL := normalizeNodeURL raw,
         Latency := durationSub (sdk.now w3) (sdk.now w2), Octas := v,
         APT := Float64.div (Float64.ofNat v.toNat) octasPerAPT, Err := none },
       [.newClient (normalizeNodeURL raw), .parseStringRelaxed acct, .accountAPTBalance],
       w3⟩ := by
  simp [checkOne, h, h1, h2, h3]

/-- The five ways through `checkOne`. -/
theorem checkOne_cases {W Client Addr E : Type} (sdk : Sdk W Client Addr E)
    (raw acct : GoString) (w : W) :
    (normalizeNodeURL raw = []) ∨
    (normalizeNodeURL raw ≠ [] ∧
      ∃ e w1, sdk.NewClient (normalizeNodeURL raw) w = (.error e, w1)) ∨
    (normalizeNodeURL raw ≠ [] ∧
      ∃ client w1 e w2, sdk.NewClient (normalizeNodeURL raw) w = (.ok client, w1) ∧
        sdk.ParseStringRelaxed acct w1 = (.error e, w2)) ∨
    (normalizeNodeURL raw ≠ [] ∧
      ∃ client w1 addr w2 v e w3, sdk.NewClient (normalizeNodeURL raw) w = (.ok client, w1) ∧
        sdk.ParseStringRelaxed acct w1 = (.ok addr, w2) ∧
        sdk.AccountAPTBalance client addr w2 = ((v, some e), w3)) ∨
    (normalizeNodeURL raw ≠ [] ∧
      ∃ client w1 addr w2 v w3, sdk.NewClient (normalizeNodeURL raw) w = (.ok client, w1) ∧
        sdk.ParseStringRelaxed acct w1 = (.ok addr, w2) ∧
        sdk.AccountAPTBalance client addr w2 = ((v, none), w3)) := by
  by_cases h : normalizeNodeURL raw = []
  · exact Or.inl h
  · right
    rcases h1 : sdk.NewClient (normalizeNodeURL raw) w with ⟨_ | client, w1⟩
    · exact Or.inl ⟨h, _, _, rfl⟩
    · right
      rcases h2 : sdk.ParseStringRelaxed acct w1 with ⟨_ | addr, w2⟩
      · exact Or.inl ⟨h, _, _, _, _, rfl, h2⟩
      · right
        rcases h3 : sdk.AccountAPTBalance client addr w2 with ⟨⟨v, _ | e⟩, w3⟩
        · exact Or.inr ⟨h, _, _, _, _, _, _, rfl, h2, h3⟩
        · exact Or.inl ⟨h, _, _, _, _, _, _, _, rfl, h2, h3⟩

/-! ## Accuracy of the binary64 model -/

theorem bitLenAux_zero_right (fuel : Nat) : bitLenAux fuel 0 = 0 := by
  cases fuel <;> simp [bitLenAux]

theorem bitLenAux_bounds (fuel n : Nat) (hf : n ≤ fuel) (hn : 0 < n) :
    n < 2 ^ bitLenAux fuel n ∧ 2 ^ bitLenAux fuel n ≤ 2 * n := by
  induction fuel generalizing n with
  | zero => omega
  | succ fuel ih =>
    have hne : n ≠ 0 := by omega
    simp only [bitLenAux, hne, if_false]
    by_cases h2 : n / 2 = 0
    · have h1 : n = 1 := by omega
      subst h1
      simp [bitLenAux_zero_right]
    · have := ih (n / 2) (by omega) (by omega)
      rw [pow_succ]
      omega

theorem bitLen_bounds (n : Nat) (hn : 0 < n) :
    n < 2 ^ bitLen n ∧ 2 ^ bitLen n ≤ 2 * n :=
  bitLenAux_bounds n n (le_refl n) hn

theorem two_zpow_split (k : Int) :
    ((2 ^ k.toNat : Nat) : ℚ) / ((2 ^ (-k).toNat : Nat) : ℚ) = (2 : ℚ) ^ k := by
  rcases le_total 0 k with h | h
  · have h1 : (-k).toNat = 0 := Int.toNat_eq_zero.2 (by omega)
    rw [h1]
    simp only [pow_zero, Nat.cast_one, div_one, Nat.cast_pow, Nat.cast_ofNat]
    rw [← zpow_natCast, Int.toNat_of_nonneg h]
  · have h1 : k.toNat = 0 := Int.toNat_eq_zero.2 h
    rw [h1]
    simp only [pow_zero, Nat.cast_one, Nat.cast_pow, Nat.cast_ofNat, one_div]
    rw [← zpow_natCast, Int.toNat_of_nonneg (by omega : 0 ≤ -k), zpow_neg, inv_inv]

theorem roundHalfEven_error (a b : Nat) (hb : 0 < b) :
    |((roundHalfEven a b : Nat) : ℚ) - (a : ℚ) / b| ≤ 1 / 2 := by
  have hb' : (0 : ℚ) < b := by exact_mod_cast hb
  have hdm : (a : ℚ) = (b : ℚ) * ((a / b : Nat) : ℚ) + ((a % b : Nat) : ℚ) := by
    exact_mod_cast (Nat.div_add_mod a b).symm
  have hr : ((a % b : Nat) : ℚ) < b := by exact_mod_cast Nat.mod_lt a hb
  have hr0 : (0 : ℚ) ≤ ((a % b : Nat) : ℚ) := Nat.cast_nonneg _
  have key : ∀ m : ℚ, |m * b - a| ≤ b / 2 → |m - (a : ℚ) / b| ≤ 1 / 2 := by
    intro m hm
    have : m - (a : ℚ) / b = (m * b - a) / b := by field_simp
    rw [this, abs_div, abs_of_pos hb', div_le_iff₀ hb']
    linarith
  apply key
  unfold roundHalfEven
  simp only []
  split_ifs with h1 h2 h3
  · have h1' : (2 : ℚ) * ((a % b : Nat) : ℚ) < b := by exact_mod_cast h1
    rw [abs_le]; constructor <;> nlinarith
  · have h2' : (b : ℚ) < 2 * ((a % b : Nat) : ℚ) := by exact_mod_cast h2
    push_cast
    rw [abs_le]; constructor <;> nlinarith
  · have e : 2 * (a % b) = b := by omega
    have e' : (2 : ℚ) * ((a % b : Nat) : ℚ) = b := by exact_mod_cast e
    rw [abs_le]; constructor <;> nlinarith
  · have e : 2 * (a % b) = b := by omega
    have e' : (2 : ℚ) * ((a % b : Nat) : ℚ) = b := by exact_mod_cast e
    push_cast
    rw [abs_le]; constructor <;> nlinarith

theorem floorLog2Ratio_bounds (n d : Nat) (hn : 0 < n) (hd : 0 < d) :
    (2 : ℚ) ^ floorLog2Ratio n d * d ≤ n ∧
    (n : ℚ) < (2 : ℚ) ^ (floorLog2Ratio n d + 1) * d := by
  obtain ⟨n1, n2⟩ := bitLen_bounds n hn
  obtain ⟨d1, d2⟩ := bitLen_bounds d hd
  have n1' : (n : ℚ) < (2 : ℚ) ^ bitLen n := by exact_mod_cast n1
  have n2' : (2 : ℚ) ^ bitLen n ≤ 2 * n := by exact_mod_cast n2
  have d1' : (d : ℚ) < (2 : ℚ) ^ bitLen d := by exact_mod_cast d1
  have d2' : (2 : ℚ) ^ bitLen d ≤ 2 * d := by exact_mod_cast d2
  have hd' : (0 : ℚ) < d := by exact_mod_cast hd
  have hL : (0 : ℚ) < (2 : ℚ) ^ bitLen n := by positivity
  have hD : (0 : ℚ) < (2 : ℚ) ^ bitLen d := by positivity
  set e0 : Int := (bitLen n : Int) - (bitLen d : Int) with he0
  have hX : (2 : ℚ) ^ e0 * (2 : ℚ) ^ bitLen d = (2 : ℚ) ^ bitLen n := by
    rw [he0, zpow_sub₀ (by norm_num : (2 : ℚ) ≠ 0), zpow_natCast, zpow_natCast]
    field_simp
  have hXpos : (0 : ℚ) < (2 : ℚ) ^ e0 := by positivity
  have hQ : (0 : ℚ) < ((2 ^ (-e0).toNat : Nat) : ℚ) := by positivity
  have hsplit := two_zpow_split e0
  have htest : d * 2 ^ e0.toNat ≤ n * 2 ^ (-e0).toNat ↔ (2 : ℚ) ^ e0 * d ≤ n := by
    rw [← hsplit, div_mul_eq_mul_div, div_le_iff₀ hQ]
    constructor
    · intro h
      have : ((d * 2 ^ e0.toNat : Nat) : ℚ) ≤ ((n * 2 ^ (-e0).toNat : Nat) : ℚ) := by
        exact_mod_cast h
      push_cast at this ⊢
      linarith
    · intro h
      have : ((d * 2 ^ e0.toNat : Nat) : ℚ) ≤ ((n * 2 ^ (-e0).toNat : Nat) : ℚ) := by
        push_cast at h ⊢
        linarith
      exact_mod_cast this
  unfold floorLog2Ratio
  simp only []
  rw [← he0]
  split_ifs with h
  · refine ⟨htest.1 h, ?_⟩
    rw [zpow_add_one₀ (by norm_num : (2 : ℚ) ≠ 0)]
    nlinarith
  · have h' : (n : ℚ) < (2 : ℚ) ^ e0 * d := lt_of_not_le (fun hh => h (htest.2 hh))
    rw [sub_add_cancel, zpow_sub_one₀ (by norm_num : (2 : ℚ) ≠ 0)]
    refine ⟨?_, h'⟩
    have : (2 : ℚ) ^ e0 * d < (2 : ℚ) ^ e0 * (2 : ℚ) ^ bitLen d :=
      mul_lt_mul_of_pos_left d1' hXpos
    have e : (2 : ℚ) ^ e0 * 2⁻¹ * d = (2 : ℚ) ^ e0 * d / 2 := by ring
    rw [e]
    linarith

theorem roundToFloat64_error (n d : Nat) (hn : 0 < n) (hd : 0 < d) :
    |(roundToFloat64 n d).toRat - (n : ℚ) / d| ≤ (n : ℚ) / d / 2 ^ 53 := by
  obtain ⟨lo, _⟩ := floorLog2Ratio_bounds n d hn hd
  have hd' : (0 : ℚ) < d := by exact_mod_cast hd
  set s : Int := 52 - floorLog2Ratio n d with hs
  have he : floorLog2Ratio n d = 52 - s := by omega
  rw [he, zpow_sub₀ (by norm_num : (2 : ℚ) ≠ 0)] at lo
  have hY : (0 : ℚ) < (2 : ℚ) ^ s := by positivity
  have hQ : (0 : ℚ) < ((2 ^ (-s).toNat : Nat) : ℚ) := by positivity
  have hB : 0 < d * 2 ^ (-s).toNat := Nat.mul_pos hd (by positivity)
  have hr := roundHalfEven_error (n * 2 ^ s.toNat) (d * 2 ^ (-s).toNat) hB
  have hAB : ((n * 2 ^ s.toNat : Nat) : ℚ) / ((d * 2 ^ (-s).toNat : Nat) : ℚ) =
      (n : ℚ) / d * (2 : ℚ) ^ s := by
    rw [← two_zpow_split s]
    push_cast
    field_simp
  rw [hAB] at hr
  have hval : (roundToFloat64 n d).toRat =
      ((roundHalfEven (n * 2 ^ s.toNat) (d * 2 ^ (-s).toNat) : Nat) : ℚ) / (2 : ℚ) ^ s := by
    unfold roundToFloat64
    simp only [Nat.pos_iff_ne_zero.1 hn, if_false]
    rw [← hs]
    split_ifs with hm
    · rw [hm]
      simp only [Float64.toRat]
      rw [zpow_sub₀ (by norm_num : (2 : ℚ) ≠ 0)]
      push_cast
      field_simp
      ring
    · simp only [Float64.toRat]
      rw [zpow_neg]
      field_simp
  rw [hval]
  set m : ℚ := ((roundHalfEven (n * 2 ^ s.toNat) (d * 2 ^ (-s).toNat) : Nat) : ℚ)
  have h1 : m / (2 : ℚ) ^ s - (n : ℚ) / d =
      (m - (n : ℚ) / d * (2 : ℚ) ^ s) / (2 : ℚ) ^ s := by
    field_simp
    ring
  rw [h1, abs_div, abs_of_pos hY, div_le_iff₀ hY]
  have h2 : (2 : ℚ) ^ (52 : ℤ) ≤ (n : ℚ) / d * (2 : ℚ) ^ s := by
    rw [div_mul_eq_mul_div, div_le_iff₀ hY] at lo
    rw [div_mul_eq_mul_div, le_div_iff₀ hd']
    linarith
  have h3 : (2 : ℚ) ^ (52 : ℤ) = 2 ^ 53 / 2 := by norm_num
  calc |m - (n : ℚ) / d * (2 : ℚ) ^ s| ≤ 1 / 2 := hr
    _ ≤ (n : ℚ) / d / 2 ^ 53 * (2 : ℚ) ^ s := by
        rw [h3] at h2
        have : (n : ℚ) / d / 2 ^ 53 * (2 : ℚ) ^ s =
            (n : ℚ) / d * (2 : ℚ) ^ s / 2 ^ 53 := by ring
        rw [this, le_div_iff₀ (by positivity)]
        linarith

theorem roundToFloat64_mant_pos (n d : Nat) (hn : 0 < n) (hd : 0 < d) :
    0 < (roundToFloat64 n d).mant := by
  by_contra h
  have h0 : (roundToFloat64 n d).mant = 0 := by omega
  have he := roundToFloat64_error n d hn hd
  have hq : (0 : ℚ) < (n : ℚ) / d := by
    have : (0 : ℚ) < n := by exact_mod_cast hn
    have : (0 : ℚ) < d := by exact_mod_cast hd
    positivity
  simp only [Float64.toRat, h0, Nat.cast_zero, zero_mul, zero_sub, abs_neg] at he
  rw [abs_of_pos hq, le_div_iff₀ (by positivity)] at he
  nlinarith

theorem float64_div_error (x y : Float64) (hx : 0 < x.mant) (hy : 0 < y.mant) :
    |(Float64.div x y).toRat - x.toRat / y.toRat| ≤ x.toRat / y.toRat / 2 ^ 53 := by
  have hY : (0 : ℚ) < y.mant := by exact_mod_cast hy
  have hq : x.toRat / y.toRat =
      ((x.mant * 2 ^ (x.exp - y.exp).toNat : Nat) : ℚ) /
        ((y.mant * 2 ^ (-(x.exp - y.exp)).toNat : Nat) : ℚ) := by
    have h2 := two_zpow_split (x.exp - y.exp)
    have hQ : (0 : ℚ) < ((2 ^ (-(x.exp - y.exp)).toNat : Nat) : ℚ) := by positivity
    have hE : (0 : ℚ) < (2 : ℚ) ^ y.exp := by positivity
    rw [zpow_sub₀ (by norm_num : (2 : ℚ) ≠ 0)] at h2
    simp only [Float64.toRat]
    rw [Nat.cast_mul, Nat.cast_mul, mul_div_mul_comm, mul_div_mul_comm, h2]
  rw [hq]
  exact roundToFloat64_error _ _ (Nat.mul_pos hx (by positivity)) (Nat.mul_pos hy (by positivity))

theorem octasPerAPT_toRat : octasPerAPT.toRat = 100000000 := by
  have : octasPerAPT = ⟨6710886400000000, -26⟩ := by decide
  rw [this]
  norm_num [Float64.toRat]

/-- The binary64 value `float64(v) / 100_000_000.0` approximates `v / 10 ^ 8`
with a relative error of at most `2 ^ (-51)` (two roundings of at most
`2 ^ (-53)` each). -/
theorem apt_error (v : Nat) :
    |(Float64.div (Float64.ofNat v) octasPerAPT).toRat - (v : ℚ) / 100000000|
      ≤ (v : ℚ) / 100000000 / 2 ^ 51 := by
  rcases Nat.eq_zero_or_pos v with h0 | hv
  · subst h0
    have : Float64.div (Float64.ofNat 0) octasPerAPT = Float64.zero := by decide
    rw [this]
    norm_num [Float64.toRat, Float64.zero]
  · have hv' : (0 : ℚ) < v := by exact_mod_cast hv
    have e1 := roundToFloat64_error v 1 hv Nat.one_pos
    have hm := roundToFloat64_mant_pos v 1 hv Nat.one_pos
    have hy : 0 < octasPerAPT.mant := by decide
    have e2 := float64_div_error (Float64.ofNat v) octasPerAPT hm hy
    rw [octasPerAPT_toRat] at e2
    simp only [Nat.cast_one, div_one] at e1
    change |(Float64.ofNat v).toRat - (v : ℚ)| ≤ (v : ℚ) / 2 ^ 53 at e1
    set t := (Float64.ofNat v).toRat
    set a := (Float64.div (Float64.ofNat v) octasPerAPT).toRat
    rw [abs_le] at e1 e2 ⊢
    have k1 : (v : ℚ) / 2 ^ 53 = v * (1 / 2 ^ 53) := by ring
    have k2 : t / 100000000 / 2 ^ 53 = t * (1 / 100000000) * (1 / 2 ^ 53) := by ring
    have k3 : (v : ℚ) / 100000000 / 2 ^ 51 = v * (1 / 100000000) * (4 / 2 ^ 53) := by ring
    have k4 : t / 100000000 = t * (1 / 100000000) := by ring
    have k5 : (v : ℚ) / 100000000 = v * (1 / 100000000) := by ring
    rw [k1] at e1
    rw [k2, k4] at e2
    rw [k3, k5]
    have c : (0 : ℚ) < 1 / 2 ^ 53 := by positivity
    have c1 : (1 : ℚ) / 2 ^ 53 ≤ 1 := by norm_num
    constructor <;> nlinarith [mul_pos hv' c]

theorem roundHalfEven_one (a : Nat) : roundHalfEven a 1 = a := by
  simp [roundHalfEven, Nat.mod_one]

/-- The conversion `float64(v)` is exact for `v < 2 ^ 53`. -/
theorem float64_ofNat_exact (v : Nat) (hv : v < 2 ^ 53) : (Float64.ofNat v).toRat = v := by
  rcases Nat.eq_zero_or_pos v with h0 | hpos
  · subst h0
    have : Float64.ofNat 0 = Float64.zero := by decide
    rw [this]
    norm_num [Float64.toRat, Float64.zero]
  · obtain ⟨lo, _⟩ := floorLog2Ratio_bounds v 1 hpos Nat.one_pos
    have hv' : (v : ℚ) < (2 : ℚ) ^ (53 : ℤ) := by
      have : (v : ℚ) < ((2 ^ 53 : Nat) : ℚ) := by exact_mod_cast hv
      have e : ((2 ^ 53 : Nat) : ℚ) = (2 : ℚ) ^ (53 : ℤ) := by norm_num
      rw [e] at this
      exact this
    have hlt : (2 : ℚ) ^ floorLog2Ratio v 1 < (2 : ℚ) ^ (53 : ℤ) := by
      simp only [Nat.cast_one, mul_one] at lo
      exact lt_of_le_of_lt lo hv'
    have he : floorLog2Ratio v 1 < 53 :=
      (zpow_lt_zpow_iff_right₀ (by norm_num : (1 : ℚ) < 2)).1 hlt
    have hs0 : (-(52 - floorLog2Ratio v 1)).toNat = 0 := Int.toNat_eq_zero.2 (by omega)
    have hs1 : ((52 - floorLog2Ratio v 1).toNat : Int) = 52 - floorLog2Ratio v 1 :=
      Int.toNat_of_nonneg (by omega)
    have hY : (0 : ℚ) < (2 : ℚ) ^ (52 - floorLog2Ratio v 1) := by positivity
    have hpow : (((2 : Nat) ^ (52 - floorLog2Ratio v 1).toNat : Nat) : ℚ) =
        (2 : ℚ) ^ (52 - floorLog2Ratio v 1) := by
      rw [Nat.cast_pow, Nat.cast_ofNat, ← zpow_natCast, hs1]
    unfold Float64.ofNat roundToFloat64
    simp only [Nat.pos_iff_ne_zero.1 hpos, if_false, hs0, pow_zero, mul_one,
      roundHalfEven_one]
    split_ifs with hm
    · have hm' : ((v * 2 ^ (52 - floorLog2Ratio v 1).toNat : Nat) : ℚ) =
          ((2 ^ 53 : Nat) : ℚ) := by
        rw [hm]
      rw [Nat.cast_mul, hpow] at hm'
      simp only [Float64.toRat]
      rw [zpow_sub₀ (by norm_num : (2 : ℚ) ≠ 0)]
      push_cast at hm' ⊢
      field_simp
      linarith
    · simp only [Float64.toRat]
      rw [Nat.cast_mul, hpow, zpow_neg]
      field_simp

/-- For `v < 2 ^ 53` the conversion is exact, and `float64(v) / 100_000_000.0`
is `v / 10 ^ 8` rounded once: relative error at most `2 ^ (-53)`. -/
theorem apt_error_of_lt (v : Nat) (hv : v < 2 ^ 53) :
    |(Float64.div (Float64.ofNat v) octasPerAPT).toRat - (v : ℚ) / 100000000|
      ≤ (v : ℚ) / 100000000 / 2 ^ 53 := by
  rcases Nat.eq_zero_or_pos v with h0 | hpos
  · subst h0
    have : Float64.div (Float64.ofNat 0) octasPerAPT = Float64.zero := by decide
    rw [this]
    norm_num [Float64.toRat, Float64.zero]
  · have hm := roundToFloat64_mant_pos v 1 hpos Nat.one_pos
    have hy : 0 < octasPerAPT.mant := by decide
    have e2 := float64_div_error (Float64.ofNat v) octasPerAPT hm hy
    rw [octasPerAPT_toRat, float64_ofNat_exact v hv] at e2
    exact e2

/-! ## Properties of `normalizeNodeURL` and `shortURL` -/

/-- C1: for every string `h` without leading white space, `normalizeNodeURL`
gives back `h` from `h + "/view"` and from `h + "/view/"`; in particular
`g + "/v1/view"` and `g + "/v1/view/"` both normalize to `g + "/v1"`. -/
theorem normalizeNodeURL_strips_view (h : GoString) (hh : trimLeftSpace h = h) :
    normalizeNodeURL (h ++ lit "/view") = h ∧
    normalizeNodeURL (h ++ lit "/view/") = h ∧
    (∀ g : GoString, h = g ++ lit "/v1" →
      normalizeNodeURL (g ++ lit "/v1/view") = g ++ lit "/v1" ∧
      normalizeNodeURL (g ++ lit "/v1/view/") = g ++ lit "/v1") := by
  have e1 : lit "/view" = viewSuffix := by decide
  have e2 : h ++ lit "/view/" = h ++ viewSuffix ++ [slash] := by
    have : lit "/view/" = viewSuffix ++ [slash] := by decide
    rw [this, List.append_assoc]
  have a1 : normalizeNodeURL (h ++ lit "/view") = h := by
    rw [e1]; exact normalizeNodeURL_append_view h hh
  have a2 : normalizeNodeURL (h ++ lit "/view/") = h := by
    rw [e2]; exact normalizeNodeURL_append_view_slash h hh
  refine ⟨a1, a2, ?_⟩
  intro g hg
  have f1 : g ++ lit "/v1/view" = h ++ lit "/view" := by
    have : lit "/v1/view" = lit "/v1" ++ lit "/view" := by decide
    rw [hg, this, List.append_assoc]
  have f2 : g ++ lit "/v1/view/" = h ++ lit "/view/" := by
    have : lit "/v1/view/" = lit "/v1" ++ lit "/view/" := by decide
    rw [hg, this, List.append_assoc]
  rw [f1, f2, a1, a2, hg]
  exact ⟨rfl, rfl⟩

/-- C1, run on the inputs of the specification: `"https://host/v1/view"` and
`"https://host/v1/view/"` give `"https://host/v1"`, and `"https://host/view"`
gives `"https://host"`. -/
theorem normalizeNodeURL_strips_view_witness :
    trimLeftSpace (lit "https://host/v1") = lit "https://host/v1" ∧
    normalizeNodeURL (lit "https://host/v1" ++ lit "/view") = lit "https://host/v1" ∧
    normalizeNodeURL (lit "https://host/v1" ++ lit "/view/") = lit "https://host/v1" ∧
    trimLeftSpace (lit "https://host") = lit "https://host" ∧
    normalizeNodeURL (lit "https://host" ++ lit "/view") = lit "https://host" :=
  ⟨by decide,
   (normalizeNodeURL_strips_view (lit "https://host/v1") (by decide)).1,
   (normalizeNodeURL_strips_view (lit "https://host/v1") (by decide)).2.1,
   by decide,
   (normalizeNodeURL_strips_view (lit "https://host") (by decide)).1⟩

/-- C2 fails as stated: `"https://host/v1//"` has no surrounding white space and
normalizes to `"https://host/v1"`, both trailing slashes removed, not to
`"https://host/v1/"`. -/
theorem normalizeNodeURL_double_slash_counterexample :
    TrimSpace (lit "https://host/v1") = lit "https://host/v1" ∧
    normalizeNodeURL (lit "https://host/v1" ++ lit "//") = lit "https://host/v1" ∧
    normalizeNodeURL (lit "https://host/v1" ++ lit "//") ≠ lit "https://host/v1" ++ lit "/" := by
  decide

/-- C2, amended: `normalizeNodeURL` removes every trailing `/`: for every string
`s` without surrounding white space and every `n`, `s` followed by `n` slashes
normalizes to what `s` normalizes to; so does `s + "//"`, and so does `s + "/"`. -/
theorem normalizeNodeURL_trailing_slashes (s : GoString) (hs : TrimSpace s = s) :
    (∀ n : Nat, normalizeNodeURL (s ++ List.replicate n slash) = normalizeNodeURL s) ∧
    normalizeNodeURL (s ++ lit "//") = normalizeNodeURL s ∧
    normalizeNodeURL (s ++ lit "/") = normalizeNodeURL s := by
  have key : ∀ n : Nat,
      normalizeNodeURL (s ++ List.replicate n slash) = normalizeNodeURL s := by
    intro n
    rw [normalizeNodeURL_of_trimSpace_eq _ (trimSpace_append_replicate_slash s n hs),
      normalizeNodeURL_of_trimSpace_eq _ hs, trimRightByte_append_replicate]
  exact ⟨key, key 2, key 1⟩

/-- C2 amended, run on `"https://host/v1"`: with two trailing slashes it
normalizes as without. -/
theorem normalizeNodeURL_trailing_slashes_witness :
    TrimSpace (lit "https://host/v1") = lit "https://host/v1" ∧
    normalizeNodeURL (lit "https://host/v1" ++ lit "//") =
      normalizeNodeURL (lit "https://host/v1") :=
  ⟨by decide, (normalizeNodeURL_trailing_slashes (lit "https://host/v1") (by decide)).2.1⟩

/-- C3 fails as stated: `" https://host/v1"` ends in `"/v1"`, and normalization
removes its leading blank, so the result is not the input. -/
theorem normalizeNodeURL_v1_counterexample :
    HasSuffix (lit " https://host/v1") (lit "/v1") = true ∧
    normalizeNodeURL (lit " https://host/v1") = lit "https://host/v1" ∧
    normalizeNodeURL (lit " https://host/v1") ≠ lit " https://host/v1" := by
  decide

/-- C3, amended: for every string `u` that ends in `"/v1"`, normalization is
idempotent and only removes the leading white space of `u`; when `u` has no
leading white space, `normalizeNodeURL (normalizeNodeURL u) = normalizeNodeURL u = u`. -/
theorem normalizeNodeURL_idempotent_on_v1 (u : GoString)
    (hu : HasSuffix u (lit "/v1") = true) :
    normalizeNodeURL (normalizeNodeURL u) = normalizeNodeURL u ∧
    normalizeNodeURL u = trimLeftSpace u ∧
    (trimLeftSpace u = u →
      normalizeNodeURL (normalizeNodeURL u) = normalizeNodeURL u ∧ normalizeNodeURL u = u) := by
  have e : lit "/v1" = v1Suffix := by decide
  rw [e, hasSuffix_iff] at hu
  obtain ⟨hT, hS⟩ := trimSpace_of_ends_v1 u hu
  obtain ⟨hT2, _⟩ := trimSpace_of_ends_v1 (trimLeftSpace u) hS
  rw [trimLeftSpace_idem] at hT2
  have h1 : normalizeNodeURL (trimLeftSpace u) = trimLeftSpace u :=
    normalizeNodeURL_of_ends_v1 _ hT2 hS
  have h2 : normalizeNodeURL u = trimLeftSpace u := by
    have := normalizeNodeURL_trimSpace u (by rw [hT, hT2])
    rw [hT] at this
    rw [← this, h1]
  refine ⟨by rw [h2, h1], h2, ?_⟩
  intro h3
  exact ⟨by rw [h2, h1], by rw [h2, h3]⟩

/-- C3 amended, run on `"https://host/v1"`. -/
theorem normalizeNodeURL_idempotent_on_v1_witness :
    HasSuffix (lit "https://host/v1") (lit "/v1") = true ∧
    normalizeNodeURL (normalizeNodeURL (lit "https://host/v1")) =
      normalizeNodeURL (lit "https://host/v1") ∧
    normalizeNodeURL (lit "https://host/v1") = lit "https://host/v1" :=
  ⟨by decide,
   (normalizeNodeURL_idempotent_on_v1 (lit "https://host/v1") (by decide)).1,
   ((normalizeNodeURL_idempotent_on_v1 (lit "https://host/v1") (by decide)).2.2
      (by decide)).2⟩

/-- C4 fails as stated: `"a "` is a normalized URL (the result for `"a /"`) of
two bytes, and `shortURL` displays it as `"a"`, not unmodified. -/
theorem shortURL_counterexample :
    normalizeNodeURL (lit "a /") = lit "a " ∧
    (normalizeNodeURL (lit "a /")).length ≤ 70 ∧
    shortURL (normalizeNodeURL (lit "a /")) = lit "a" ∧
    shortURL (normalizeNodeURL (lit "a /")) ≠ normalizeNodeURL (lit "a /") := by
  decide

theorem shortURL_of_trimSpace_eq (u : GoString) (hu : TrimSpace u = u) :
    (u.length ≤ 70 → shortURL u = u) ∧
    (70 < u.length → shortURL u = u.take 67 ++ ellipsis ∧ (shortURL u).length = 70) := by
  refine ⟨?_, ?_⟩
  · intro h
    rw [shortURL_eq, hu, if_pos h]
  · intro h
    have hs : shortURL u = u.take 67 ++ ellipsis := by
      rw [shortURL_eq, hu, if_neg (by omega)]
    refine ⟨hs, ?_⟩
    rw [hs, List.length_append, List.length_take]
    simp [ellipsis]
    omega

/-- C4, amended: `shortURL` first trims surrounding white space, and a
normalized URL can end in white space.  For every normalized URL `u` (a result
of `normalizeNodeURL`) that does not end in white space: with at most 70 bytes
`shortURL u = u` (the empty URL displays as empty); with more than 70 bytes
`shortURL u` is the first 67 bytes of `u` followed by `"..."`, of length
exactly 70. -/
theorem shortURL_truncation (raw : GoString)
    (h : trimRightSpace (normalizeNodeURL raw) = normalizeNodeURL raw) :
    ((normalizeNodeURL raw).length ≤ 70 →
      shortURL (normalizeNodeURL raw) = normalizeNodeURL raw) ∧
    (70 < (normalizeNodeURL raw).length →
      shortURL (normalizeNodeURL raw) = (normalizeNodeURL raw).take 67 ++ lit "..." ∧
      (shortURL (normalizeNodeURL raw)).length = 70) ∧
    shortURL [] = [] := by
  have e : lit "..." = ellipsis := by decide
  obtain ⟨h1, h2⟩ := shortURL_of_trimSpace_eq _ (trimSpace_normalizeNodeURL raw h)
  rw [e]
  exact ⟨h1, h2, by decide⟩

/-- C4 amended, run at the boundary: a normalized URL of 70 bytes is displayed
unmodified, one of 71 bytes is displayed in 70 bytes, ending in `"..."`. -/
theorem shortURL_truncation_witness :
    trimRightSpace (normalizeNodeURL (url70 ++ lit "/view/")) =
      normalizeNodeURL (url70 ++ lit "/view/") ∧
    (normalizeNodeURL (url70 ++ lit "/view/")).length = 70 ∧
    shortURL (normalizeNodeURL (url70 ++ lit "/view/")) = url70 ∧
    (normalizeNodeURL (url71 ++ lit "/view/")).length = 71 ∧
    (shortURL (normalizeNodeURL (url71 ++ lit "/view/"))).length = 70 :=
  ⟨by decide, by decide,
   ((shortURL_truncation (url70 ++ lit "/view/") (by decide)).1 (by decide)).trans (by decide),
   by decide,
   ((shortURL_truncation (url71 ++ lit "/view/") (by decide)).2.1 (by decide)).2⟩

/-- C5: the row returned by `checkOne` has exactly one of the two shapes: its
`Err` is set and `Octas` and `APT` are at their zero values; or its `Err` is nil,
the client was built, the account parsed, the balance query answered `Octas`
without error, and `APT` is the conversion of that value. -/
theorem checkOne_row_exclusive {W Client Addr E : Type} (sdk : Sdk W Client Addr E)
    (name raw acct : GoString)
    (w : W) :
    ((checkOne sdk name raw acct w).result.Err ≠ none ∧
      (checkOne sdk name raw acct w).result.Octas = 0 ∧
      (checkOne sdk name raw acct w).result.APT = Float64.zero) ∨
    ((checkOne sdk name raw acct w).result.Err = none ∧
      ∃ client w1 addr w2 w3,
        sdk.NewClient (normalizeNodeURL raw) w = (.ok client, w1) ∧
        sdk.ParseStringRelaxed acct w1 = (.ok addr, w2) ∧
        sdk.AccountAPTBalance client addr w2 =
          (((checkOne sdk name raw acct w).result.Octas, none), w3) ∧
        (checkOne sdk name raw acct w).result.APT =
          Float64.div (Float64.ofNat (checkOne sdk name raw acct w).result.Octas.toNat)
            octasPerAPT) := by
  rcases checkOne_cases sdk raw acct w with h | ⟨h, e, w1, h1⟩ |
    ⟨h, client, w1, e, w2, h1, h2⟩ | ⟨h, client, w1, addr, w2, v, e, w3, h1, h2, h3⟩ |
    ⟨h, client, w1, addr, w2, v, w3, h1, h2, h3⟩
  · left; rw [checkOne_of_empty sdk name raw acct w h]; simp
  · left; rw [checkOne_of_newClient_error sdk name raw acct w w1 e h h1]; simp
  · left; rw [checkOne_of_parse_error sdk name raw acct w w1 w2 client e h h1 h2]; simp
  · left
    rw [checkOne_of_query_error sdk name raw acct w w1 w2 w3 client addr v e h h1 h2 h3]
    simp
  · right
    rw [checkOne_of_success sdk name raw acct w w1 w2 w3 client addr v h h1 h2 h3]
    exact ⟨rfl, client, w1, addr, w2, w3, h1, h2, h3, rfl⟩

/-- C6: for a slot name `"RPC_" + k` and a raw URL that is a sequence of
white-space runes (the empty sequence included), `checkOne` returns the row with
an empty `BaseURL` and the error `missing RPC URL (set APTOS_RPC_URL_k)`, makes
no call to the collaborator and leaves the world as it was. -/
theorem checkOne_missing_endpoint {W Client Addr E : Type} (sdk : Sdk W Client Addr E)
    (k acct : GoString) (w : W)
    (runes : List GoString) (hr : ∀ e ∈ runes, isSpaceRune e = true) :
    (checkOne sdk (lit "RPC_" ++ k) runes.flatten acct w).result =
      { Name := lit "RPC_" ++ k, BaseURL := [], Latency := 0, Octas := 0,
        APT := Float64.zero,
        Err := some (.errorf (lit "missing RPC URL (set APTOS_RPC_URL_" ++ k ++ lit ")")) } ∧
    (checkOne sdk (lit "RPC_" ++ k) runes.flatten acct w).calls = [] ∧
    (checkOne sdk (lit "RPC_" ++ k) runes.flatten acct w).world = w := by
  have h : normalizeNodeURL runes.flatten = [] := by
    apply normalizeNodeURL_of_trimSpace_nil
    unfold TrimSpace
    rw [trimLeftSpace_flatten_spaceRunes runes hr]
    decide
  rw [checkOne_of_empty sdk _ _ acct w h]
  simp [missingEndpointError, trimPrefix_append]

/-- C6, run for the slot `RPC_2` with the raw URL blank, tab, ideographic space:
the error names `APTOS_RPC_URL_2` and the collaborator is not called. -/
theorem checkOne_missing_endpoint_witness :
    (∀ e ∈ [[0x20], [0x09], [0xE3, 0x80, 0x80]], isSpaceRune e = true) ∧
    (checkOne scriptedSdk (lit "RPC_" ++ lit "2")
        [[0x20], [0x09], [0xE3, 0x80, 0x80]].flatten (lit "0x1") 0).result.Err =
      some (.errorf (lit "missing RPC URL (set APTOS_RPC_URL_" ++ lit "2" ++ lit ")")) ∧
    (checkOne scriptedSdk (lit "RPC_" ++ lit "2")
        [[0x20], [0x09], [0xE3, 0x80, 0x80]].flatten (lit "0x1") 0).calls = [] :=
  ⟨by decide,
   by rw [(checkOne_missing_endpoint scriptedSdk (lit "2") (lit "0x1") 0
        [[0x20], [0x09], [0xE3, 0x80, 0x80]] (by decide)).1],
   (checkOne_missing_endpoint scriptedSdk (lit "2") (lit "0x1") 0
        [[0x20], [0x09], [0xE3, 0x80, 0x80]] (by decide)).2.1⟩

/-- C7: the error of the row is that of the first failing step, in the order
empty normalized URL, client construction, account parsing, balance query, and
the steps after a failure are not run.  The errors of the second and third step
wrap the cause under `NewClient: ` and `invalid APTOS_ACCOUNT: `; the error of the
query is the collaborator's own.  The balance query is called only when the URL
is not empty, the client was built and the account parsed. -/
theorem checkOne_first_failure {W Client Addr E : Type} (sdk : Sdk W Client Addr E)
    (name raw acct : GoString)
    (w : W) :
    (normalizeNodeURL raw = [] →
      (checkOne sdk name raw acct w).result.Err = some (missingEndpointError name) ∧
      (checkOne sdk name raw acct w).calls = [] ∧
      (checkOne sdk name raw acct w).world = w) ∧
    (∀ e w1, normalizeNodeURL raw ≠ [] →
      sdk.NewClient (normalizeNodeURL raw) w = (.error e, w1) →
      (checkOne sdk name raw acct w).result.Err =
        some (.wrapf (lit "NewClient: " ++ sdk.errorText e) e) ∧
      (checkOne sdk name raw acct w).calls = [.newClient (normalizeNodeURL raw)] ∧
      (checkOne sdk name raw acct w).world = w1) ∧
    (∀ client w1 e w2, normalizeNodeURL raw ≠ [] →
      sdk.NewClient (normalizeNodeURL raw) w = (.ok client, w1) →
      sdk.ParseStringRelaxed acct w1 = (.error e, w2) →
      (checkOne sdk name raw acct w).result.Err =
        some (.wrapf (lit "invalid APTOS_ACCOUNT: " ++ sdk.errorText e) e) ∧
      (checkOne sdk name raw acct w).calls =
        [.newClient (normalizeNodeURL raw), .parseStringRelaxed acct] ∧
      (checkOne sdk name raw acct w).world = w2) ∧
    (∀ client w1 addr w2 v e w3, normalizeNodeURL raw ≠ [] →
      sdk.NewClient (normalizeNodeURL raw) w = (.ok client, w1) →
      sdk.ParseStringRelaxed acct w1 = (.ok addr, w2) →
      sdk.AccountAPTBalance client addr w2 = ((v, some e), w3) →
      (checkOne sdk name raw acct w).result.Err = some (.sdk e) ∧
      (checkOne sdk name raw acct w).calls =
        [.newClient (normalizeNodeURL raw), .parseStringRelaxed acct, .accountAPTBalance] ∧
      (checkOne sdk name raw acct w).world = w3) ∧
    (Call.accountAPTBalance ∈ (checkOne sdk name raw acct w).calls →
      normalizeNodeURL raw ≠ [] ∧
      ∃ client w1 addr w2, sdk.NewClient (normalizeNodeURL raw) w = (.ok client, w1) ∧
        sdk.ParseStringRelaxed acct w1 = (.ok addr, w2)) := by
  refine ⟨?_, ?_, ?_, ?_, ?_⟩
  · intro h
    rw [checkOne_of_empty sdk name raw acct w h]
    exact ⟨rfl, rfl, rfl⟩
  · intro e w1 h h1
    rw [checkOne_of_newClient_error sdk name raw acct w w1 e h h1]
    exact ⟨rfl, rfl, rfl⟩
  · intro client w1 e w2 h h1 h2
    rw [checkOne_of_parse_error sdk name raw acct w w1 w2 client e h h1 h2]
    exact ⟨rfl, rfl, rfl⟩
  · intro client w1 addr w2 v e w3 h h1 h2 h3
    rw [checkOne_of_query_error sdk name raw acct w w1 w2 w3 client addr v e h h1 h2 h3]
    exact ⟨rfl, rfl, rfl⟩
  · intro hc
    rcases checkOne_cases sdk raw acct w with h | ⟨h, e, w1, h1⟩ |
      ⟨h, client, w1, e, w2, h1, h2⟩ | ⟨h, client, w1, addr, w2, v, e, w3, h1, h2, h3⟩ |
      ⟨h, client, w1, addr, w2, v, w3, h1, h2, h3⟩
    · rw [checkOne_of_empty sdk name raw acct w h] at hc; simp at hc
    · rw [checkOne_of_newClient_error sdk name raw acct w w1 e h h1] at hc; simp at hc
    · rw [checkOne_of_parse_error sdk name raw acct w w1 w2 client e h h1 h2] at hc
      simp at hc
    · exact ⟨h, client, w1, addr, w2, h1, h2⟩
    · exact ⟨h, client, w1, addr, w2, h1, h2⟩

/-- C7, run where both the client construction (`ftp://` URL) and the account
parsing (no `0x`) would fail: the row carries the client-construction error and
only `NewClient` was called. -/
theorem checkOne_first_failure_witness :
    normalizeNodeURL (lit "ftp://host/v1") ≠ [] ∧
    scriptedSdk.NewClient (normalizeNodeURL (lit "ftp://host/v1")) 0 =
      (.error (lit "unsupported protocol scheme"), 1) ∧
    (scriptedSdk.ParseStringRelaxed (lit "zz") 1).1 = .error (lit "missing 0x") ∧
    (checkOne scriptedSdk (lit "RPC_1") (lit "ftp://host/v1") (lit "zz") 0).result.Err =
      some (.wrapf (lit "NewClient: " ++ lit "unsupported protocol scheme")
        (lit "unsupported protocol scheme")) ∧
    (checkOne scriptedSdk (lit "RPC_1") (lit "ftp://host/v1") (lit "zz") 0).calls =
      [.newClient (normalizeNodeURL (lit "ftp://host/v1"))] :=
  ⟨by decide, by rfl, by rfl,
   ((checkOne_first_failure scriptedSdk (lit "RPC_1") (lit "ftp://host/v1") (lit "zz") 0).2.1
      (lit "unsupported protocol scheme") 1 (by decide) (by rfl)).1,
   ((checkOne_first_failure scriptedSdk (lit "RPC_1") (lit "ftp://host/v1") (lit "zz") 0).2.1
      (lit "unsupported protocol scheme") 1 (by decide) (by rfl)).2.1⟩

theorem checkOne_name {W Client Addr E : Type} (sdk : Sdk W Client Addr E)
    (name raw acct : GoString) (w : W) :
    (checkOne sdk name raw acct w).result.Name = name := by
  rcases checkOne_cases sdk raw acct w with h | ⟨h, e, w1, h1⟩ |
    ⟨h, client, w1, e, w2, h1, h2⟩ | ⟨h, client, w1, addr, w2, v, e, w3, h1, h2, h3⟩ |
    ⟨h, client, w1, addr, w2, v, w3, h1, h2, h3⟩
  · rw [checkOne_of_empty sdk name raw acct w h]
  · rw [checkOne_of_newClient_error sdk name raw acct w w1 e h h1]
  · rw [checkOne_of_parse_error sdk name raw acct w w1 w2 client e h h1 h2]
  · rw [checkOne_of_query_error sdk name raw acct w w1 w2 w3 client addr v e h h1 h2 h3]
  · rw [checkOne_of_success sdk name raw acct w w1 w2 w3 client addr v h h1 h2 h3]

theorem checkOne_newClient_calls {W Client Addr E : Type} (sdk : Sdk W Client Addr E)
    (name raw acct : GoString)
    (w : W) (url : GoString) (hc : Call.newClient url ∈ (checkOne sdk name raw acct w).calls) :
    url = normalizeNodeURL raw := by
  rcases checkOne_cases sdk raw acct w with h | ⟨h, e, w1, h1⟩ |
    ⟨h, client, w1, e, w2, h1, h2⟩ | ⟨h, client, w1, addr, w2, v, e, w3, h1, h2, h3⟩ |
    ⟨h, client, w1, addr, w2, v, w3, h1, h2, h3⟩
  · rw [checkOne_of_empty sdk name raw acct w h] at hc; simp at hc
  · rw [checkOne_of_newClient_error sdk name raw acct w w1 e h h1] at hc; simpa using hc
  · rw [checkOne_of_parse_error sdk name raw acct w w1 w2 client e h h1 h2] at hc
    simpa using hc
  · rw [checkOne_of_query_error sdk name raw acct w w1 w2 w3 client addr v e h h1 h2 h3] at hc
    simpa using hc
  · rw [checkOne_of_success sdk name raw acct w w1 w2 w3 client addr v h h1 h2 h3] at hc
    simpa using hc

theorem filterMap_resultRowName_printRow {E : Type} (r : row E) :
    (printRow r).filterMap resultRowName = [r.Name] := by
  unfold printRow
  cases r.Err <;> simp [resultRowName]

theorem filterMap_resultRowName_banner {E : Type} (account : GoString) :
    (banner account : List (Line E)).filterMap resultRowName = [] := by
  have h1 : lit "OCTAS" ≠ lit "ERROR" := by decide
  have h2 : lit "--------------" ≠ lit "ERROR" := by decide
  simp [banner, resultRowName, h1, h2]

/-- C8: when the account identifier (the trimmed value of `APTOS_ACCOUNT`) is
not empty, `main` runs `checkOne` exactly three times, for `RPC_1`, `RPC_2`,
`RPC_3` in that order, each on its own slot name and URL, the account, and the
world left by the check before it; after the banner it prints the row of each
check in that order, one result row per slot, whatever the outcome of the other
checks; the collaborator calls are those of the three checks, and the exit code
is 0. -/
theorem main_checks_every_slot {W Client Addr E : Type} (sdk : Sdk W Client Addr E)
    (getenv : GoString → GoString)
    (w : W) (hacc : env getenv (lit "APTOS_ACCOUNT") ≠ []) :
    ∃ o1 o2 o3 : CheckOutcome W E,
      o1 = checkOne sdk (lit "RPC_1")
        (if env getenv (lit "APTOS_RPC_URL_1") = [] then env getenv (lit "APTOS_RPC_URL")
          else env getenv (lit "APTOS_RPC_URL_1"))
        (env getenv (lit "APTOS_ACCOUNT")) w ∧
      o2 = checkOne sdk (lit "RPC_2") (env getenv (lit "APTOS_RPC_URL_2"))
        (env getenv (lit "APTOS_ACCOUNT")) o1.world ∧
      o3 = checkOne sdk (lit "RPC_3") (env getenv (lit "APTOS_RPC_URL_3"))
        (env getenv (lit "APTOS_ACCOUNT")) o2.world ∧
      (main sdk getenv w).stdout =
        banner (env getenv (lit "APTOS_ACCOUNT")) ++ printRow o1.result ++
          printRow o2.result ++ printRow o3.result ∧
      (main sdk getenv w).stdout.filterMap resultRowName =
        [lit "RPC_1", lit "RPC_2", lit "RPC_3"] ∧
      (main sdk getenv w).calls = o1.calls ++ o2.calls ++ o3.calls ∧
      (main sdk getenv w).world = o3.world ∧
      (main sdk getenv w).exitCode = 0 ∧
      (main sdk getenv w).stderr = [] := by
  refine ⟨_, _, _, rfl, rfl, rfl, ?_⟩
  have hm : main sdk getenv w =
      { stdout := banner (env getenv (lit "APTOS_ACCOUNT")) ++
          printRow (checkOne sdk (lit "RPC_1")
            (if env getenv (lit "APTOS_RPC_URL_1") = [] then env getenv (lit "APTOS_RPC_URL")
              else env getenv (lit "APTOS_RPC_URL_1"))
            (env getenv (lit "APTOS_ACCOUNT")) w).result ++
          printRow (checkOne sdk (lit "RPC_2") (env getenv (lit "APTOS_RPC_URL_2"))
            (env getenv (lit "APTOS_ACCOUNT")) (checkOne sdk (lit "RPC_1")
            (if env getenv (lit "APTOS_RPC_URL_1") = [] then env getenv (lit "APTOS_RPC_URL")
              else env getenv (lit "APTOS_RPC_URL_1"))
            (env getenv (lit "APTOS_ACCOUNT")) w).world).result ++
          printRow (checkOne sdk (lit "RPC_3") (env getenv (lit "APTOS_RPC_URL_3"))
            (env getenv (lit "APTOS_ACCOUNT")) (checkOne sdk (lit "RPC_2")
            (env getenv (lit "APTOS_RPC_URL_2"))
            (env getenv (lit "APTOS_ACCOUNT")) (checkOne sdk (lit "RPC_1")
            (if env getenv (lit "APTOS_RPC_URL_1") = [] then env getenv (lit "APTOS_RPC_URL")
              else env getenv (lit "APTOS_RPC_URL_1"))
            (env getenv (lit "APTOS_ACCOUNT")) w).world).world).result,
        stderr := [], exitCode := 0,
        calls := (checkOne sdk (lit "RPC_1")
            (if env getenv (lit "APTOS_RPC_URL_1") = [] then env getenv (lit "APTOS_RPC_URL")
              else env getenv (lit "APTOS_RPC_URL_1"))
            (env getenv (lit "APTOS_ACCOUNT")) w).calls ++
          (checkOne sdk (lit "RPC_2") (env getenv (lit "APTOS_RPC_URL_2"))
            (env getenv (lit "APTOS_ACCOUNT")) (checkOne sdk (lit "RPC_1")
            (if env getenv (lit "APTOS_RPC_URL_1") = [] then env getenv (lit "APTOS_RPC_URL")
              else env getenv (lit "APTOS_RPC_URL_1"))
            (env getenv (lit "APTOS_ACCOUNT")) w).world).calls ++
          (checkOne sdk (lit "RPC_3") (env getenv (lit "APTOS_RPC_URL_3"))
            (env getenv (lit "APTOS_ACCOUNT")) (checkOne sdk (lit "RPC_2")
            (env getenv (lit "APTOS_RPC_URL_2"))
            (env getenv (lit "APTOS_ACCOUNT")) (checkOne sdk (lit "RPC_1")
            (if env getenv (lit "APTOS_RPC_URL_1") = [] then env getenv (lit "APTOS_RPC_URL")
              else env getenv (lit "APTOS_RPC_URL_1"))
            (env getenv (lit "APTOS_ACCOUNT")) w).world).world).calls,
        world := (checkOne sdk (lit "RPC_3") (env getenv (lit "APTOS_RPC_URL_3"))
            (env getenv (lit "APTOS_ACCOUNT")) (checkOne sdk (lit "RPC_2")
            (env getenv (lit "APTOS_RPC_URL_2"))
            (env getenv (lit "APTOS_ACCOUNT")) (checkOne sdk (lit "RPC_1")
            (if env getenv (lit "APTOS_RPC_URL_1") = [] then env getenv (lit "APTOS_RPC_URL")
              else env getenv (lit "APTOS_RPC_URL_1"))
            (env getenv (lit "APTOS_ACCOUNT")) w).world).world).world } := by
    simp only [main, if_neg hacc, checkTargets, List.nil_append]
  have h1 := congrArg MainOutcome.stdout hm
  have h2 := congrArg MainOutcome.calls hm
  have h3 := congrArg MainOutcome.world hm
  have h4 := congrArg MainOutcome.exitCode hm
  have h5 := congrArg MainOutcome.stderr hm
  simp only [] at h1 h2 h3 h4 h5
  refine ⟨h1, ?_, h2, h3, h4, h5⟩
  rw [h1]
  simp only [List.filterMap_append, filterMap_resultRowName_printRow,
    filterMap_resultRowName_banner, checkOne_name, List.nil_append, List.singleton_append,
    List.cons_append]

/-- C8, run on the scripted environment and collaborator (third endpoint not
set): three result rows, in the order of the slots. -/
theorem main_checks_every_slot_witness :
    env scriptedGetenv (lit "APTOS_ACCOUNT") ≠ [] ∧
    (main scriptedSdk scriptedGetenv 0).stdout.filterMap resultRowName =
      [lit "RPC_1", lit "RPC_2", lit "RPC_3"] ∧
    (main scriptedSdk scriptedGetenv 0).exitCode = 0 :=
  ⟨by decide,
   (main_checks_every_slot scriptedSdk scriptedGetenv 0 (by decide)).elim
     (fun _ h => h.elim (fun _ h => h.elim (fun _ h => h.2.2.2.2.1))),
   (main_checks_every_slot scriptedSdk scriptedGetenv 0 (by decide)).elim
     (fun _ h => h.elim (fun _ h => h.elim (fun _ h => h.2.2.2.2.2.2.2.1)))⟩

/-- C9: on a successful check the row's `APT` is the binary64 quotient
`float64(Octas) / 100_000_000.0`.  Its value is `Octas / 10 ^ 8` up to the two
roundings, a relative error of at most `2 ^ (-51)`, and of at most `2 ^ (-53)`
when `Octas < 2 ^ 53` (the conversion is then exact).  For `Octas = 123456789`
it is the binary64 value of the constant `1.23456789`, the one nearest to
123456789 / 100000000 (`5559999489367579 * 2 ^ (-52)`). -/
theorem checkOne_apt_conversion {W Client Addr E : Type} (sdk : Sdk W Client Addr E)
    (name raw acct : GoString)
    (w : W) (h : (checkOne sdk name raw acct w).result.Err = none) :
    (checkOne sdk name raw acct w).result.APT =
      Float64.div (Float64.ofNat (checkOne sdk name raw acct w).result.Octas.toNat)
        (Float64.ofNat 100000000) ∧
    |(checkOne sdk name raw acct w).result.APT.toRat -
        ((checkOne sdk name raw acct w).result.Octas.toNat : ℚ) / 100000000|
      ≤ ((checkOne sdk name raw acct w).result.Octas.toNat : ℚ) / 100000000 / 2 ^ 51 ∧
    ((checkOne sdk name raw acct w).result.Octas.toNat < 2 ^ 53 →
      |(checkOne sdk name raw acct w).result.APT.toRat -
          ((checkOne sdk name raw acct w).result.Octas.toNat : ℚ) / 100000000|
        ≤ ((checkOne sdk name raw acct w).result.Octas.toNat : ℚ) / 100000000 / 2 ^ 53) ∧
    ((checkOne sdk name raw acct w).result.Octas = 123456789 →
      (checkOne sdk name raw acct w).result.APT = roundToFloat64 123456789 100000000 ∧
      (checkOne sdk name raw acct w).result.APT = ⟨5559999489367579, -52⟩) := by
  rcases checkOne_cases sdk raw acct w with h0 | ⟨h0, e, w1, h1⟩ |
    ⟨h0, client, w1, e, w2, h1, h2⟩ | ⟨h0, client, w1, addr, w2, v, e, w3, h1, h2, h3⟩ |
    ⟨h0, client, w1, addr, w2, v, w3, h1, h2, h3⟩
  · rw [checkOne_of_empty sdk name raw acct w h0] at h; simp at h
  · rw [checkOne_of_newClient_error sdk name raw acct w w1 e h0 h1] at h; simp at h
  · rw [checkOne_of_parse_error sdk name raw acct w w1 w2 client e h0 h1 h2] at h
    simp at h
  · rw [checkOne_of_query_error sdk name raw acct w w1 w2 w3 client addr v e h0 h1 h2 h3] at h
    simp at h
  · rw [checkOne_of_success sdk name raw acct w w1 w2 w3 client addr v h0 h1 h2 h3]
    refine ⟨rfl, apt_error v.toNat, apt_error_of_lt v.toNat, ?_⟩
    intro hv
    have hv' : v = 123456789 := hv
    subst hv'
    have e1 : Float64.div (Float64.ofNat (123456789 : UInt64).toNat) octasPerAPT =
        roundToFloat64 123456789 100000000 := by decide
    have e2 : roundToFloat64 123456789 100000000 = ⟨5559999489367579, -52⟩ := by decide
    exact ⟨e1, e1.trans e2⟩

/-- C9, run on the scripted collaborator, whose query answers 123456789 octas. -/
theorem checkOne_apt_conversion_witness :
    (checkOne scriptedSdk (lit "RPC_1") (lit "https://host/v1") (lit "0x1") 0).result.Err
      = none ∧
    (checkOne scriptedSdk (lit "RPC_1") (lit "https://host/v1") (lit "0x1") 0).result.Octas
      = 123456789 ∧
    (checkOne scriptedSdk (lit "RPC_1") (lit "https://host/v1") (lit "0x1") 0).result.APT
      = ⟨5559999489367579, -52⟩ :=
  ⟨by decide, by decide,
   ((checkOne_apt_conversion scriptedSdk (lit "RPC_1") (lit "https://host/v1") (lit "0x1") 0
      (by decide)).2.2.2 (by decide)).2⟩

/-- C10 fails as stated: `"https://host/v1/view/view"` normalizes to
`"https://host/v1/view"`, which ends with `"/v1/view"`. -/
theorem normalizeNodeURL_v1View_counterexample :
    normalizeNodeURL (lit "https://host/v1/view/view") = lit "https://host/v1/view" ∧
    HasSuffix (normalizeNodeURL (lit "https://host/v1/view/view")) (lit "/v1/view") = true := by
  decide

/-- C10, amended: `normalizeNodeURL` strips one trailing `"/view"`, once.  For
every input the result ends with `"/v1/view"` exactly when the input, with
surrounding white space and trailing slashes trimmed, ends with
`"/v1/view/view"`; for every other input it does not end with `"/v1/view"`.  The
NodeUrl that `checkOne` hands to the client is the result of `normalizeNodeURL`. -/
theorem normalizeNodeURL_ends_v1View_iff {W Client Addr E : Type} (sdk : Sdk W Client Addr E)
    (name raw acct : GoString) (w : W) :
    HasSuffix (normalizeNodeURL raw) (lit "/v1/view") =
      HasSuffix (TrimRightByte (TrimSpace raw) slash) (lit "/v1/view/view") ∧
    (HasSuffix (TrimRightByte (TrimSpace raw) slash) (lit "/v1/view/view") = false →
      HasSuffix (normalizeNodeURL raw) (lit "/v1/view") = false) ∧
    (∀ url, Call.newClient url ∈ (checkOne sdk name raw acct w).calls →
      url = normalizeNodeURL raw) := by
  have e1 : lit "/v1/view" = v1ViewSuffix := by decide
  have e2 : lit "/v1/view/view" = v1ViewSuffix ++ viewSuffix := by decide
  have key := hasSuffix_normalizeNodeURL_v1View raw
  rw [e1, e2]
  exact ⟨key, fun h => key.trans h,
    fun url hc => checkOne_newClient_calls sdk name raw acct w url hc⟩

end AptosBalance
